import Mathlib

/-!
Verification development for the Sajda prayer-times engine
(`src-tauri/src/prayer_engine.rs` and `src-tauri/src/scheduler.rs`).

The Rust sources are shallowly embedded: machine integers (`u64`, `u32`,
`i64`) become `Nat`/`Int` with explicit `% 2^w` wherever wraparound matters,
`HashSet<String>` becomes `List String` with `List.insert`, `HashMap` becomes
an association list, and the Tauri / chrono / salah collaborators (astronomy,
local-time rendering, float formatting, trigonometry) are abstracted as
oracle parameters since they live outside the repository.
-/

namespace Sajda

/-! ## Machine-integer helpers -/

/-- The constant `2^64`, the modulus of Rust `u64` wraparound arithmetic. -/
def u64Mod : Nat := 18446744073709551616

/-- The constant `2^32`, the modulus of Rust `u32` wraparound arithmetic. -/
def u32Mod : Nat := 4294967296

/-- Rust `u32` subtraction `a - b` under release semantics: wraparound
modulo `2^32` (valid for `a b < 2^32`; under debug overflow checks the same
expression panics when `a < b`). -/
def sub32 (a b : Nat) : Nat := (a + u32Mod - b) % u32Mod

/-- Zero-pad a natural number to two digits, as Rust `format!("{:02}", n)`. -/
def pad2Nat (n : Nat) : String := if n < 10 then "0" ++ toString n else toString n

/-- Rust `format!("{:02}", n)` for a signed value: Rust pads to width 2 counting
the sign, so any value outside `[0, 9]` prints as plain decimal. -/
def pad2 (n : Int) : String := if 0 ≤ n ∧ n < 10 then "0" ++ toString n else toString n

/-! ## ReminderTimeGenerator (`scheduler.rs`, `generate_random_times`) -/

/-- One step of the LCG in `generate_random_times`:
`state.wrapping_mul(6364136223846793005).wrapping_add(1442695040888963407)`. -/
def lcg (s : Nat) : Nat := (s * 6364136223846793005 + 1442695040888963407) % u64Mod

/-- Candidate minute-of-day from an LCG state:
`min_minutes + ((state >> 33) as u32) % range` with `min_minutes = 480` and
`range = 780`.  (`state >> 33` has at most 31 bits, so the `as u32` cast is
exact.) -/
def candidateMinute (s : Nat) : Nat := 480 + (s >>> 33) % 780

/-- The seed `(year as u64).wrapping_mul(10000) + (month as u64 * 100) + day as u64`.
The `i32 → u64` cast is two's-complement (`year % 2^64` as Euclidean `Int`
remainder), and the products/sums are reduced mod `2^64` (release semantics;
all real dates stay far below the modulus). -/
def seedOf (year : Int) (month day : Nat) : Nat :=
  (((year % (u64Mod : Int)).toNat * 10000) % u64Mod + (month * 100 + day)) % u64Mod

/-- Insertion of a value into a sorted list of naturals (helper for
`sortNats`). -/
def insertSorted (x : Nat) : List Nat → List Nat
  | [] => [x]
  | y :: ys => if x ≤ y then x :: y :: ys else y :: insertSorted x ys

/-- Model of `Vec::sort` on a list of naturals, as insertion sort (any
stable comparison sort agrees on `Nat`). -/
def sortNats : List Nat → List Nat
  | [] => []
  | x :: xs => insertSorted x (sortNats xs)

/-- The gap-enforcement loop of `generate_random_times`, walking the sorted
list with the updated predecessor:
`if times[i] - times[i-1] < 90 { times[i] = (times[i-1] + 90).min(1260) }`.
The subtraction is Rust `u32` subtraction, i.e. `sub32` (wraps when the
updated predecessor exceeds the current element). -/
def gapWalk (prev : Nat) : List Nat → List Nat
  | [] => []
  | x :: rest =>
    let x' := if sub32 x prev < 90 then min (prev + 90) 1260 else x
    x' :: gapWalk x' rest

/-- The wrapper `enforceGaps` applies `gapWalk` starting from the first element
(index `i` runs from 1, so the head is never modified). -/
def enforceGaps : List Nat → List Nat
  | [] => []
  | x :: rest => x :: gapWalk x rest

/-- Minute-of-day to `HH:MM` via `format!("{:02}:{:02}", m / 60, m % 60)`. -/
def fmtMinute (m : Nat) : String := pad2Nat (m / 60) ++ ":" ++ pad2Nat (m % 60)

/-- The minute-of-day list computed by `generate_random_times` before
formatting: three LCG candidates, sorted, gaps enforced. -/
def genMinutes (year : Int) (month day : Nat) : List Nat :=
  let s1 := lcg (seedOf year month day)
  let s2 := lcg s1
  let s3 := lcg s2
  enforceGaps (sortNats [candidateMinute s1, candidateMinute s2, candidateMinute s3])

/-- The function `generate_random_times(year, month, day)` from `scheduler.rs`. -/
def generate_random_times (year : Int) (month day : Nat) : List String :=
  (genMinutes year month day).map fmtMinute

/-- Sort of exactly three naturals written as nested comparisons (used by the
spec-side formulations below). -/
def sort3 (a b c : Nat) : List Nat :=
  if a ≤ b then
    if b ≤ c then [a, b, c]
    else if a ≤ c then [a, c, b]
    else [c, a, b]
  else
    if a ≤ c then [b, a, c]
    else if b ≤ c then [b, c, a]
    else [c, b, a]

/-- The gap walk exactly as the specification words it: "walking left to
right, if a candidate is less than 90 minutes after its predecessor, push
it to predecessor + 90, clamped to the 21:00 ceiling" — a *signed*
comparison `x < prev + 90`. -/
def gapWalkSpec (prev : Nat) : List Nat → List Nat
  | [] => []
  | x :: rest =>
    let x' := if x < prev + 90 then min (prev + 90) 1260 else x
    x' :: gapWalkSpec x' rest

/-- The walk `enforceGaps` in the specification's wording (signed comparison). -/
def enforceGapsSpec : List Nat → List Nat
  | [] => []
  | x :: rest => x :: gapWalkSpec x rest

/-- The reminder algorithm exactly as the specification words it
(spec §4.3): three LCG candidates, sorted ascending, signed-comparison gap
walk, `HH:MM` formatting. -/
def generate_spec (year : Int) (month day : Nat) : List String :=
  let s1 := lcg (seedOf year month day)
  let s2 := lcg s1
  let s3 := lcg s2
  (enforceGapsSpec
    (sort3 (candidateMinute s1) (candidateMinute s2) (candidateMinute s3))).map
    fmtMinute

/-- The reminder algorithm as amended to match the code: identical to
`generate_spec` except that the gap test is the `u32` wrapping subtraction
`(x - prev) mod 2^32 < 90`, so a candidate that ends up strictly *before*
its (already pushed) predecessor wraps around and is left unchanged. -/
def generate_amended (year : Int) (month day : Nat) : List String :=
  let s1 := lcg (seedOf year month day)
  let s2 := lcg s1
  let s3 := lcg s2
  (enforceGaps
    (sort3 (candidateMinute s1) (candidateMinute s2) (candidateMinute s3))).map
    fmtMinute

/-! ## Calendar dates (`chrono::NaiveDate`, restricted to what the engine uses) -/

/-- A local calendar date (`NaiveDate` components used by the engine). -/
structure Date where
  year : Int
  month : Nat
  day : Nat
deriving DecidableEq

/-- Gregorian leap-year test. -/
def isLeap (y : Int) : Bool := (y % 4 = 0 && y % 100 ≠ 0) || y % 400 = 0

/-- Days in a Gregorian month. -/
def daysInMonth (y : Int) (m : Nat) : Nat :=
  if m = 2 then (if isLeap y then 29 else 28)
  else if m = 4 || m = 6 || m = 9 || m = 11 then 30
  else 31

/-- The method `NaiveDate::succ_opt`: the next calendar day.  (chrono returns `None`
only at its maximum representable date, year 262142, which is far outside
the dates the engine ever produces; the model keeps the successor total.) -/
def nextDate (d : Date) : Date :=
  if d.day < daysInMonth d.year d.month then ⟨d.year, d.month, d.day + 1⟩
  else if d.month < 12 then ⟨d.year, d.month + 1, 1⟩
  else ⟨d.year + 1, 1, 1⟩

/-- chrono `%b`: three-letter English month abbreviation. -/
def monthAbbrev : Nat → String
  | 1 => "Jan" | 2 => "Feb" | 3 => "Mar" | 4 => "Apr" | 5 => "May" | 6 => "Jun"
  | 7 => "Jul" | 8 => "Aug" | 9 => "Sep" | 10 => "Oct" | 11 => "Nov" | 12 => "Dec"
  | _ => ""

/-- chrono `%Y`: the year zero-padded to at least four digits (the engine
only ever sees four-digit years). -/
def pad4 (y : Int) : String :=
  if 0 ≤ y ∧ y < 10 then "000" ++ toString y
  else if 0 ≤ y ∧ y < 100 then "00" ++ toString y
  else if 0 ≤ y ∧ y < 1000 then "0" ++ toString y
  else toString y

/-- The cache date key `now.format("%d-%b-%Y")`, e.g. `"23-Jan-2026"`. -/
def fmtDateKey (d : Date) : String :=
  pad2Nat d.day ++ "-" ++ monthAbbrev d.month ++ "-" ++ pad4 d.year

/-- The cache month tag `Local::now().format("%b-%Y")`, e.g. `"Jan-2026"`. -/
def fmtMonthTag (d : Date) : String := monthAbbrev d.month ++ "-" ++ pad4 d.year

/-! ## Engine data model (`prayer_engine.rs`, `jakim_api.rs`) -/

/-- A coordinate pair.  Rust stores `f64` degrees; the model uses `ℚ`
(exact values standing in for the floating-point doubles). -/
structure Coord where
  latitude : ℚ
  longitude : ℚ
deriving DecidableEq

/-- The struct `jakim_api::Zone` (the fields the engine reads). -/
structure Zone where
  jakim_code : String
  negeri : String
  daerah : String
deriving DecidableEq

/-- The map `ZonesMap = HashMap<String, Zone>`, modelled as an association list with
distinct keys. -/
def ZonesMap := List (String × Zone)

/-- The struct `jakim_api::PrayerDatapoint`. -/
structure PrayerDatapoint where
  day : Int
  fajr : Int
  syuruk : Int
  dhuhr : Int
  asr : Int
  maghrib : Int
  isha : Int
  hijri : Option String
deriving DecidableEq

/-- The struct `jakim_api::JakimCache` (the AuthoritativeCache): zone code, the
coordinate it was fetched for, the month tag, and the date-keyed map of
daily prayer times. -/
structure JakimCache where
  zone : String
  lat : ℚ
  lng : ℚ
  month_hash : String
  prayers : List (String × PrayerDatapoint)
deriving DecidableEq

/-- The `HashMap::get` lookup on the date-keyed prayers map. -/
def lookupPrayers (c : JakimCache) (key : String) : Option PrayerDatapoint :=
  (c.prayers.find? (fun kv => kv.1 = key)).map (fun kv => kv.2)

/-- The `HashMap::get` lookup on the zones map. -/
def lookupZone (m : ZonesMap) (code : String) : Option Zone :=
  (List.find? (fun kv => kv.1 = code) m).map (fun kv => kv.2)

/-- The struct `prayer_engine::PrayerSchedule`. -/
structure PrayerSchedule where
  fajr : Int
  syuruk : Int
  dhuhr : Int
  asr : Int
  maghrib : Int
  isha : Int
  source : String
  zone_code : String
  zone_name : String
  hijri : Option String
deriving DecidableEq

/-- The struct `prayer_engine::NextPrayer`. -/
structure NextPrayer where
  name : String
  time : String
  remaining : String
  timestamp : Int
deriving DecidableEq

/-- The `PrayerEngine` state: the five independently locked fields, with the
opaque `salah::Parameters` strategy as a type parameter `P`. -/
structure PrayerEngine (P : Type) where
  coordinates : Option Coord
  strategy : P
  cache : Option JakimCache
  zones : Option ZonesMap
  current_method : String

/-- The six timestamps produced by one `salah::PrayerTimes::new` call. -/
structure DayTimes where
  fajr : Int
  syuruk : Int
  dhuhr : Int
  asr : Int
  maghrib : Int
  isha : Int
deriving DecidableEq

/-- Oracle for the collaborators outside the repository that
`prayer_engine.rs` calls into: the salah astronomy crate
(`PrayerTimes::new(date, coords, params)` followed by `.time(...)` and
`.timestamp()`), the `format!("{:.4}, {:.4}", lat, lng)` float rendering,
and the local timezone offset used by chrono when rendering `%H:%M`. -/
structure AstroOracle (P : Type) where
  times : Date → Coord → P → DayTimes
  fmtCoord : Coord → String
  tz : Int

/-- The wall-clock values read from one `Local::now()` call (their mutual
consistency is chrono's concern, outside the model). -/
structure LocalNow where
  ts : Int
  date : Date
  second : Nat
  hm : String
  isFriday : Bool

/-! ## `format_time` (claim C10) -/

/-- The Rust cast `ts as u64` for `ts : i64`: two's-complement
reinterpretation, i.e. `ts mod 2^64` (a negative `ts` lands on
`2^64 + ts ≥ 2^63`). -/
def castU64 (ts : Int) : Int := ts % (u64Mod : Int)

/-- Rendering `%H:%M` of an epoch second under a fixed local-offset `tz`. -/
def fmtHM (tz ts : Int) : String :=
  pad2 (((ts + tz) / 3600) % 24) ++ ":" ++ pad2 (((ts + tz) / 60) % 60)

/-- The method `PrayerEngine::format_time`:
`DateTime::<Local>::from(UNIX_EPOCH + Duration::from_secs(ts as u64))`.
`UNIX_EPOCH + Duration::from_secs(u)` overflows `SystemTime` (a panic — the
error branch) whenever `u` exceeds `i64::MAX = 2^63 - 1`, which happens for
every negative `ts`; the model returns `none` there. -/
def format_time_checked (tz ts : Int) : Option String :=
  let u := castU64 ts
  if u < 9223372036854775808 then some (fmtHM tz u) else none

/-- Total wrapper used by the rest of the model (all timestamps the engine
actually renders are non-negative epoch seconds, where the checked and total
versions agree; compare claim C10). -/
def format_time (tz ts : Int) : String := (format_time_checked tz ts).getD ""

/-! ## `resolve_zone_name`, `get_today_schedule`, `needs_refetch`,
`get_next_prayer` -/

/-- The method `PrayerEngine::resolve_zone_name`: look the code up in the zones map and
render `"{daerah}, {negeri}"`, falling back to the raw code. -/
def resolve_zone_name {P : Type} (e : PrayerEngine P) (code : String) : String :=
  match e.zones with
  | some m =>
    match lookupZone m code with
    | some z => z.daerah ++ ", " ++ z.negeri
    | none => code
  | none => code

/-- The fallback arm of `get_today_schedule`: requires coordinates, computes
the six timestamps through the salah oracle, and tags the result
`"calculated-fallback"` with a zone label synthesized from the coordinate. -/
def computed_fallback {P : Type} (o : AstroOracle P) (e : PrayerEngine P)
    (now : LocalNow) : Option PrayerSchedule :=
  match e.coordinates with
  | none => none
  | some coords =>
    let t := o.times now.date coords e.strategy
    some { fajr := t.fajr, syuruk := t.syuruk, dhuhr := t.dhuhr, asr := t.asr,
           maghrib := t.maghrib, isha := t.isha,
           source := "calculated-fallback", zone_code := "CALC",
           zone_name := o.fmtCoord coords, hijri := none }

/-- The method `PrayerEngine::get_today_schedule`: consult the JAKIM cache only when
the active method is `"JAKIM"`; on a hit return the cached record tagged
`"jakim-api"`; otherwise fall back to computation. -/
def get_today_schedule {P : Type} (o : AstroOracle P) (e : PrayerEngine P)
    (now : LocalNow) : Option PrayerSchedule :=
  let date_key := fmtDateKey now.date
  if e.current_method = "JAKIM" then
    match e.cache with
    | some c =>
      match lookupPrayers c date_key with
      | some p =>
        some { fajr := p.fajr, syuruk := p.syuruk, dhuhr := p.dhuhr,
               asr := p.asr, maghrib := p.maghrib, isha := p.isha,
               source := "jakim-api", zone_code := c.zone,
               zone_name := resolve_zone_name e c.zone, hijri := p.hijri }
      | none => computed_fallback o e now
    | none => computed_fallback o e now
  else computed_fallback o e now

/-- The trigonometric primitives used by the haversine computation in
`needs_refetch`.  In Rust these are `f64` operations; the model keeps them
abstract over `ℚ` (the claims about `needs_refetch` hold for every
interpretation). -/
structure TrigOps where
  toRadians : ℚ → ℚ
  sin : ℚ → ℚ
  cos : ℚ → ℚ
  sqrt : ℚ → ℚ
  atan2 : ℚ → ℚ → ℚ

/-- The haversine great-circle distance exactly as written in
`needs_refetch` (Earth radius 6371 km), over abstract trigonometry. -/
def haversineDistance (T : TrigOps) (cacheLat cacheLng lat lng : ℚ) : ℚ :=
  let r : ℚ := 6371
  let dLat := T.toRadians (lat - cacheLat)
  let dLon := T.toRadians (lng - cacheLng)
  let lat1 := T.toRadians cacheLat
  let lat2 := T.toRadians lat
  let a := T.sin (dLat / 2) ^ 2 + T.cos lat1 * T.cos lat2 * T.sin (dLon / 2) ^ 2
  let c := 2 * T.atan2 (T.sqrt a) (T.sqrt (1 - a))
  r * c

/-- The method `PrayerEngine::needs_refetch(lat, lng)`: `true` when there is no cache;
otherwise `true` when the cached month tag differs from the current
`%b-%Y` tag; otherwise `true` when the haversine distance from the cached
coordinate exceeds 5.0 km; otherwise `false`.  A pure query: it only reads
the engine (modelled by not returning a state). -/
def needs_refetch {P : Type} (T : TrigOps) (e : PrayerEngine P) (today : Date)
    (lat lng : ℚ) : Bool :=
  match e.cache with
  | some cache =>
    if cache.month_hash ≠ fmtMonthTag today then true
    else if haversineDistance T cache.lat cache.lng lat lng > 5 then true
    else false
  | none => true

/-- The `HH:MM:SS` remaining-time rendering
`format!("{:02}:{:02}:{:02}", diff / 3600, (diff % 3600) / 60, diff % 60)`
with Rust (truncating) `i64` division and remainder. -/
def fmtHMS (diff : Int) : String :=
  pad2 (Int.tdiv diff 3600) ++ ":" ++ pad2 (Int.tdiv (Int.tmod diff 3600) 60)
    ++ ":" ++ pad2 (Int.tmod diff 60)

/-- The six `(name, timestamp)` pairs in canonical order, as built both in
`get_next_prayer` and in the scheduler's trigger loop. -/
def prayerPairs (s : PrayerSchedule) : List (String × Int) :=
  [("fajr", s.fajr), ("syuruk", s.syuruk), ("dhuhr", s.dhuhr),
   ("asr", s.asr), ("maghrib", s.maghrib), ("isha", s.isha)]

/-- Build the `NextPrayer` record returned by `get_next_prayer`. -/
def mkNextPrayer (tz : Int) (nowTs : Int) (name : String) (t : Int) : NextPrayer :=
  { name := name, time := format_time tz t, remaining := fmtHMS (t - nowTs),
    timestamp := t }

/-- The cache read in the rollover arm of `get_next_prayer`: tomorrow's
fajr from the cache entry under the given date key, when present.  (Unlike
`get_today_schedule`, this read is *not* guarded by the active method.) -/
def cachedFajrFor {P : Type} (e : PrayerEngine P) (key : String) : Option Int :=
  match e.cache with
  | some c => (lookupPrayers c key).map (fun p => p.fajr)
  | none => none

/-- Tomorrow's fajr timestamp as resolved by the rollover arm of
`get_next_prayer`: the cached value when found, else the salah computation
when coordinates are known, else nothing (`tom_fajr` / `found` in the
source). -/
def tomorrowFajr {P : Type} (o : AstroOracle P) (e : PrayerEngine P)
    (now : LocalNow) : Option Int :=
  let tomorrow := nextDate now.date
  match cachedFajrFor e (fmtDateKey tomorrow) with
  | some f => some f
  | none =>
    match e.coordinates with
    | some coords => some (o.times tomorrow coords e.strategy).fajr
    | none => none

/-- The method `PrayerEngine::get_next_prayer`: first of the six canonical events with
timestamp strictly greater than now; otherwise roll over to tomorrow's fajr
taken from the cache entry for tomorrow's date key when present, else
computed from the coordinates, else `none` — always named `"fajr"`. -/
def get_next_prayer {P : Type} (o : AstroOracle P) (e : PrayerEngine P)
    (now : LocalNow) : Option NextPrayer :=
  match get_today_schedule o e now with
  | none => none
  | some schedule =>
    match (prayerPairs schedule).find? (fun p => now.ts < p.2) with
    | some p => some (mkNextPrayer o.tz now.ts p.1 p.2)
    | none =>
      match tomorrowFajr o e now with
      | some f => some (mkNextPrayer o.tz now.ts "fajr" f)
      | none => none

/-! ## TriggerScheduler (`scheduler.rs`, `start_ticker`) -/

/-- The settings values `start_ticker` reads through `settings::load_settings`
each tick (collaborator data, passed in as input). -/
structure UserSettings where
  audioMode : String → String
  adhanVoice : String
  alkahf : Bool
  remindersEnabled : Bool
  randomReminders : Bool
  reminderTimes : List String

/-- The externally observable side effects one tick can invoke, in program
order.  `markTriggered` records an insertion into `triggered_today` (the
dedup bookkeeping that, in the source, precedes the alert calls);
`trayUpdate`/`prayerUpdate`/`wakeSignal`/`reminderTrigger`/`showWindow` go
to the DisplaySink, `notification`/`audio` to the AlertSink. -/
inductive Effect where
  | markTriggered (name : String)
  | wakeSignal
  | trayUpdate (text : String)
  | prayerUpdate (next : NextPrayer)
  | notification (name : String)
  | audio (name : String) (file : String)
  | reminderTrigger (hm : String)
  | showWindow
deriving DecidableEq

/-- The ticker's own mutable state: the dedup set `triggered_today`
(a `HashSet<String>`, modelled as a duplicate-free-by-use list), the day
marker `last_date`, and the monotonic instant `last_tick_time` (whole
seconds; `Instant` subsecond precision only shifts where the 5-second
threshold falls). -/
structure SchedState where
  triggered : List String
  lastDate : Option Date
  lastTick : Option Nat
deriving DecidableEq

/-- Per-tick inputs from outside the scheduler: the monotonic clock, the
wall clock, the settings snapshot, and availability of the audio device,
audio resource path, tray handle and main window. -/
structure TickInput where
  nowInstant : Nat
  now : LocalNow
  settings : UserSettings
  audioAvailable : Bool
  resourceOk : Bool
  trayOk : Bool
  windowOk : Bool

/-- The wake-recovery marking loop: for each event whose time has strictly
passed (`current_timestamp > time`) and is not yet in the set, insert it
(no alert is emitted). -/
def wakeMark (nowTs : Int) : List (String × Int) → List String → List String × List Effect
  | [], tr => (tr, [])
  | (n, t) :: rest, tr =>
    if t < nowTs ∧ n ∉ tr then
      let step := wakeMark nowTs rest (List.insert n tr)
      (step.1, Effect.markTriggered n :: step.2)
    else wakeMark nowTs rest tr

/-- The wake-detection block: when a wake was detected, mark all past events
of today's schedule (when one resolved) and emit the `system-wake` signal;
otherwise do nothing. -/
def wakeStep (detected : Bool) (sched : Option PrayerSchedule) (nowTs : Int)
    (tr : List String) : List String × List Effect :=
  if detected then
    match sched with
    | some s =>
      let m := wakeMark nowTs (prayerPairs s) tr
      (m.1, m.2 ++ [Effect.wakeSignal])
    | none => (tr, [Effect.wakeSignal])
  else (tr, [])

/-- The midnight-rollover block: when `last_date` differs from the current
local date, clear `triggered_today` and update `last_date`. -/
def rollover (tr : List String) (last : Option Date) (d : Date) :
    List String × Option Date :=
  if last = some d then (tr, last) else ([], some d)

/-- Malay display names used for the tray title (`dhuhr` becomes `Jumaat`
on Fridays). -/
def displayName (name : String) (isFriday : Bool) : String :=
  if name = "fajr" then "Subuh"
  else if name = "syuruk" then "Syuruk"
  else if name = "dhuhr" then (if isFriday then "Jumaat" else "Zohor")
  else if name = "asr" then "Asar"
  else if name = "maghrib" then "Maghrib"
  else if name = "isha" then "Isyak"
  else name

/-- The helper `to_mono_digits`: replace each ASCII digit by the corresponding
Mathematical Monospace Digit (U+1D7F6 + digit). -/
def monoDigits (s : String) : String :=
  s.map (fun c =>
    if c.isDigit then Char.ofNat (0x1D7F6 + (c.toNat - 0x30)) else c)

/-- The tray/frontend update block: when a next prayer resolved, set the
tray title to the monospace-digit `" {name} - {remaining}"` string and emit
the full value to the frontend. -/
def displayStep (next : Option NextPrayer) (isFriday trayOk : Bool) : List Effect :=
  match next with
  | none => []
  | some n =>
    let tray := monoDigits (" " ++ displayName n.name isFriday ++ " - " ++ n.remaining)
    (if trayOk then [Effect.trayUpdate tray] else []) ++ [Effect.prayerUpdate n]

/-- Audio file selection: `Adhan_Fajr.mp3` for fajr in adhan mode, the
selected voice otherwise, `Chime.mp3` in any other non-mute mode. -/
def audioFile (mode voice name : String) : String :=
  if mode = "adhan" then
    (if name = "fajr" then "Adhan_Fajr.mp3"
     else if voice = "Ahmed" then "Ahmed.mp3" else "Nasser.mp3")
  else "Chime.mp3"

/-- The side effects of firing one event, in source order: the dedup
insertion record first, then the notification (skipped for `syuruk`), then
audio (skipped for `syuruk`, in mute mode, without an audio device, or when
the resource path fails to resolve). -/
def fireEffects (stg : UserSettings) (audioOk resOk : Bool) (n : String) :
    List Effect :=
  let mode := stg.audioMode n
  Effect.markTriggered n ::
    ((if n ≠ "syuruk" then [Effect.notification n] else []) ++
     (if mode ≠ "mute" ∧ n ≠ "syuruk" ∧ audioOk ∧ resOk then
        [Effect.audio n (audioFile mode stg.adhanVoice n)]
      else []))

/-- The trigger loop over the six events in canonical order: fire exactly
those whose 2-second window `[t, t+2)` contains now and whose name is not
yet in `triggered_today`, inserting the name before invoking the effects. -/
def triggerLoop (stg : UserSettings) (audioOk resOk : Bool) (nowTs : Int) :
    List (String × Int) → List String → List String × List Effect
  | [], tr => (tr, [])
  | (n, t) :: rest, tr =>
    if (t ≤ nowTs ∧ nowTs < t + 2) ∧ n ∉ tr then
      let step := triggerLoop stg audioOk resOk nowTs rest (List.insert n tr)
      (step.1, fireEffects stg audioOk resOk n ++ step.2)
    else triggerLoop stg audioOk resOk nowTs rest tr

/-- The trigger block: run the trigger loop when today's schedule resolved. -/
def triggerStep (stg : UserSettings) (audioOk resOk : Bool) (nowTs : Int)
    (sched : Option PrayerSchedule) (tr : List String) :
    List String × List Effect :=
  match sched with
  | some s => triggerLoop stg audioOk resOk nowTs (prayerPairs s) tr
  | none => (tr, [])

/-- The active reminder time-of-day list: generated from today's date in
random mode, the fixed user list otherwise. -/
def activeReminderTimes (now : LocalNow) (stg : UserSettings) : List String :=
  if stg.randomReminders then
    generate_random_times now.date.year now.date.month now.date.day
  else stg.reminderTimes

/-- The minute-granular reminder block: only when the seconds field is 0 and
reminders are enabled, compute the active `HH:MM` set (generated from
today's date, or the fixed user list) and fire when the current `HH:MM` is a
member. -/
def reminderStep (now : LocalNow) (stg : UserSettings) (windowOk : Bool) :
    List Effect :=
  if now.second = 0 ∧ stg.remindersEnabled then
    if now.hm ∈ activeReminderTimes now stg then
      Effect.reminderTrigger now.hm :: (if windowOk then [Effect.showWindow] else [])
    else []
  else []

/-- Whether a wake is detected on this tick: a previous tick exists and
`last_tick.elapsed().as_secs() > 5`. -/
def detectWake (lastTick : Option Nat) (nowInstant : Nat) : Bool :=
  match lastTick with
  | none => false
  | some t => nowInstant - t > 5

/-- One iteration of the `start_ticker` loop, in source order: wake
detection and `last_tick_time` update, wake recovery, midnight rollover,
tray/frontend update, trigger actions, reminders.  The engine value `e` is
the shared state as read during this tick. -/
def tick {P : Type} (o : AstroOracle P) (e : PrayerEngine P) (s : SchedState)
    (inp : TickInput) : SchedState × List Effect :=
  let detected := detectWake s.lastTick inp.nowInstant
  let sched := get_today_schedule o e inp.now
  let w := wakeStep detected sched inp.now.ts s.triggered
  let r := rollover w.1 s.lastDate inp.now.date
  let dEffs := displayStep (get_next_prayer o e inp.now) inp.now.isFriday inp.trayOk
  let t := triggerStep inp.settings inp.audioAvailable inp.resourceOk
    inp.now.ts sched r.1
  let rEffs := reminderStep inp.now inp.settings inp.windowOk
  ({ triggered := t.1, lastDate := r.2, lastTick := some inp.nowInstant },
   w.2 ++ dEffs ++ t.2 ++ rEffs)

/-- A run of the ticker: each tick reads its own snapshot of the shared
engine state (collaborators may write between ticks) and its own inputs;
effects accumulate in order. -/
def runTicks {P : Type} (o : AstroOracle P) (s : SchedState) :
    List (PrayerEngine P × TickInput) → SchedState × List Effect
  | [] => (s, [])
  | (e, inp) :: rest =>
    let step := tick o e s inp
    let tail := runTicks o step.1 rest
    (tail.1, step.2 ++ tail.2)

/-! ## Observables over effect traces -/

/-- Is this effect an AlertSink invocation (notification or audio) for the
given event name? -/
def isAlertFor (e : String) : Effect → Bool
  | .notification n => n = e
  | .audio n _ => n = e
  | _ => false

/-- Is this effect a notification for the given event name? -/
def isNotifFor (e : String) : Effect → Bool
  | .notification n => n = e
  | _ => false

/-- Is this effect an audio invocation for the given event name? -/
def isAudioFor (e : String) : Effect → Bool
  | .audio n _ => n = e
  | _ => false

/-- Number of notifications for a given event name in a trace. -/
def countNotif (e : String) (l : List Effect) : Nat :=
  (l.filter (isNotifFor e)).length

/-- Number of audio invocations for a given event name in a trace. -/
def countAudio (e : String) (l : List Effect) : Nat :=
  (l.filter (isAudioFor e)).length

/-- Captures "the name is inserted before any side effect": no AlertSink effect for
`e` occurs in the trace before the first `markTriggered e`. -/
def markPrecedesAlert (e : String) : List Effect → Bool
  | [] => true
  | Effect.markTriggered n :: rest =>
    if n = e then true else markPrecedesAlert e rest
  | eff :: rest => !(isAlertFor e eff) && markPrecedesAlert e rest

/-! ## Positional view of the six events (for stating "first such that") -/

/-- The `i`-th canonical event of a schedule, `i : Fin 6`. -/
def pairAt (s : PrayerSchedule) : Fin 6 → String × Int
  | 0 => ("fajr", s.fajr)
  | 1 => ("syuruk", s.syuruk)
  | 2 => ("dhuhr", s.dhuhr)
  | 3 => ("asr", s.asr)
  | 4 => ("maghrib", s.maghrib)
  | 5 => ("isha", s.isha)

/-! ## Concrete fixtures used by witnesses and counterexamples -/

/-- A trivial astronomy/formatting oracle (UTC rendering, zero times). -/
def oracle0 : AstroOracle Unit :=
  { times := fun _ _ _ => ⟨0, 0, 0, 0, 0, 0⟩,
    fmtCoord := fun _ => "0.0000, 0.0000", tz := 0 }

/-- A trivial interpretation of the haversine trigonometry. -/
def trig0 : TrigOps :=
  { toRadians := id, sin := id, cos := id, sqrt := id, atan2 := fun _ _ => 0 }

/-- Fixture date 23-Jan-2026. -/
def date0 : Date := ⟨2026, 1, 23⟩

/-- Fixture daily record for 23-Jan-2026 (epoch-second stand-ins). -/
def point0 : PrayerDatapoint := ⟨23, 100, 200, 300, 400, 500, 700, none⟩

/-- A stale record under tomorrow's key whose fajr (10) lies in the past of
the fixture clock (1000). -/
def pointTom : PrayerDatapoint := ⟨24, 10, 20, 30, 40, 50, 70, none⟩

/-- Fixture cache holding only today's record. -/
def cache0 : JakimCache := ⟨"SGR01", 3, 101, "Jan-2026", [("23-Jan-2026", point0)]⟩

/-- Fixture cache holding today's record and a stale tomorrow record. -/
def cacheTom : JakimCache :=
  ⟨"SGR01", 3, 101, "Jan-2026",
   [("23-Jan-2026", point0), ("24-Jan-2026", pointTom)]⟩

/-- A well-formed record under tomorrow's key (fajr far in the future). -/
def pointTomGood : PrayerDatapoint :=
  ⟨24, 90000, 90100, 90200, 90300, 90400, 90500, none⟩

/-- Fixture cache holding today's record and a well-formed tomorrow
record. -/
def cacheGood : JakimCache :=
  ⟨"SGR01", 3, 101, "Jan-2026",
   [("23-Jan-2026", point0), ("24-Jan-2026", pointTomGood)]⟩

/-- The schedule `get_today_schedule` resolves from `cache0` on the fixture
date (no zones table, so the zone name falls back to the raw code). -/
def sched0 : PrayerSchedule :=
  ⟨100, 200, 300, 400, 500, 700, "jakim-api", "SGR01", "SGR01", none⟩

/-- Fixture zones table for `SGR01`. -/
def zones0 : ZonesMap := [("SGR01", ⟨"SGR01", "Selangor", "Petaling"⟩)]

/-- Fixture engine: JAKIM method, cache for today, no zones table. -/
def engine0 : PrayerEngine Unit := ⟨none, (), some cache0, none, "JAKIM"⟩

/-- Fixture engine with a zones table. -/
def engineZ : PrayerEngine Unit := ⟨none, (), some cache0, some zones0, "JAKIM"⟩

/-- Fixture engine whose cache also holds a stale tomorrow record. -/
def engineTom : PrayerEngine Unit := ⟨none, (), some cacheTom, none, "JAKIM"⟩

/-- Fixture engine whose cache holds a well-formed tomorrow record. -/
def engineGood : PrayerEngine Unit := ⟨none, (), some cacheGood, none, "JAKIM"⟩

/-- Fixture wall clock at epoch second 100 on the fixture date. -/
def now0 : LocalNow := ⟨100, date0, 5, "00:01", false⟩

/-- Fixture wall clock at epoch second 1000 (past all six events of
`point0`). -/
def nowLate : LocalNow := ⟨1000, date0, 5, "00:16", false⟩

/-- Fixture settings: everything muted, generated reminders on. -/
def settings0 : UserSettings := ⟨fun _ => "mute", "Nasser", true, true, true, []⟩

/-- Fixture tick input (no wake: previous tick one second ago). -/
def input0 : TickInput := ⟨10, now0, settings0, true, true, true, true⟩

/-- Fixture ticker state whose previous tick was 1 second before
`input0.nowInstant`. -/
def state0 : SchedState := ⟨[], some date0, some 9⟩

/-- Fixture ticker state whose previous tick was 8 seconds before
`input0.nowInstant` (a wake). -/
def stateGap : SchedState := ⟨[], some date0, some 2⟩

/-- Fixture wall clock sitting exactly on the syuruk timestamp of
`point0`. -/
def nowSy : LocalNow := ⟨200, date0, 5, "00:03", false⟩

/-- Fixture tick input at the syuruk instant (no wake). -/
def inputSy : TickInput := ⟨10, nowSy, settings0, true, true, true, true⟩

/-! # Theorems -/

/-! ## Claim C5 (reminder generator output shape) -/

/-- Claim C5, evaluated at the failing input (2024-02-09): the generator
returns `["12:12", "13:42", "12:41"]` — the minute values are
`[732, 822, 761]`, which are *not* strictly ascending (761 < 822), and the
second gap is negative rather than ≥ 90 minutes or clamped at 21:00.  The
second candidate was pushed past the third (732+90 = 822 > 761), after
which the `u32` subtraction `761 - 822` wraps around and the gap test is
skipped (debug builds panic on the same subtraction). -/
theorem C5_generator_unsorted_at_failing_input :
    genMinutes 2024 2 9 = [732, 822, 761] ∧
    generate_random_times 2024 2 9 = ["12:12", "13:42", "12:41"] ∧
    ¬ List.Chain' (fun a b => a < b) (genMinutes 2024 2 9) ∧
    ¬ List.Chain' (fun a b => a + 90 ≤ b ∨ b = 1260) (genMinutes 2024 2 9) := by
  have h : genMinutes 2024 2 9 = [732, 822, 761] := by decide
  refine ⟨h, by decide, ?_, ?_⟩ <;>
    · rw [h]; simp only [List.chain'_cons, List.chain'_singleton, and_true]; omega

/-! ## Claim C6 (reminder generator algorithm) -/

/-- Claim C6 counterexample: at (2024-02-09) the code's output differs from
the algorithm exactly as the claim words it (signed "less than 90 minutes
after its predecessor" comparison): the claimed algorithm pushes the third
value to `822 + 90 = 912` (`"15:12"`), the code leaves it at 761
(`"12:41"`). -/
theorem C6_counterexample_signed_gap :
    generate_random_times 2024 2 9 ≠ generate_spec 2024 2 9 ∧
    generate_random_times 2024 2 9 = ["12:12", "13:42", "12:41"] ∧
    generate_spec 2024 2 9 = ["12:12", "13:42", "15:12"] := by
  refine ⟨by decide, by decide, by decide⟩

/-- Insertion sort of three naturals agrees with the explicit
three-way-comparison sort. -/
theorem sortNats_three (a b c : Nat) : sortNats [a, b, c] = sort3 a b c := by
  simp only [sortNats, insertSorted, sort3]
  by_cases hbc : b ≤ c <;> by_cases hab : a ≤ b <;> by_cases hac : a ≤ c <;>
    simp [hbc, hab, hac, insertSorted] <;> omega

/-- Claim C6 as amended: the generator computes the claimed algorithm with
the gap comparison taken in 32-bit wrapping arithmetic
(`(candidate - predecessor) mod 2^32 < 90`), so a candidate that was pushed
past its successor leaves the successor unchanged. -/
theorem C6_generator_algorithm_amended (year : Int) (month day : Nat) :
    generate_random_times year month day = generate_amended year month day := by
  simp only [generate_random_times, genMinutes, generate_amended]
  rw [sortNats_three]

/-! ## Claim C10 (`format_time` and the `i64 → u64` cast) -/

/-- Claim C10: for any `i64` timestamp (`-2^63 ≤ ts < 2^63`) the `ts as u64`
cast wraps a negative value to `2^64 + ts ≥ 2^63`, making the
`UNIX_EPOCH + Duration::from_secs` addition overflow (the error branch), so
`format_time`'s conversion succeeds exactly when `ts` is non-negative —
callers must keep schedule timestamps ≥ 0. -/
theorem C10_format_time_cast (tz ts : Int)
    (hlo : -9223372036854775808 ≤ ts) (hhi : ts < 9223372036854775808) :
    ((format_time_checked tz ts).isSome ↔ 0 ≤ ts) ∧
    (ts < 0 →
      castU64 ts = 18446744073709551616 + ts ∧
      9223372036854775808 ≤ castU64 ts ∧
      format_time_checked tz ts = none) ∧
    (0 ≤ ts → format_time_checked tz ts = some (fmtHM tz ts)) := by
  have hcast : castU64 ts = if ts < 0 then 18446744073709551616 + ts else ts := by
    unfold castU64 u64Mod
    split <;> omega
  simp only [format_time_checked, hcast]
  by_cases hneg : ts < 0
  · rw [if_pos hneg, if_neg (show ¬ (18446744073709551616 + ts <
      9223372036854775808) by omega)]
    refine ⟨?_, fun _ => ⟨rfl, by omega, rfl⟩, fun h => absurd h (by omega)⟩
    simp only [Option.isSome_none, Bool.false_eq_true, false_iff]
    omega
  · rw [if_neg hneg, if_pos (show ts < 9223372036854775808 from hhi)]
    refine ⟨?_, fun h => absurd h hneg, fun _ => rfl⟩
    simp only [Option.isSome_some, true_iff]
    omega

/-- Witness for C10 at `ts = -1`: the cast lands on `2^64 - 1 ≥ 2^63` and
the conversion fails. -/
theorem C10_format_time_cast_witness :
    (((format_time_checked 0 (-1)).isSome ↔ 0 ≤ (-1 : Int)) ∧
     ((-1 : Int) < 0 →
       castU64 (-1) = 18446744073709551616 + (-1) ∧
       9223372036854775808 ≤ castU64 (-1) ∧
       format_time_checked 0 (-1) = none) ∧
     (0 ≤ (-1 : Int) → format_time_checked 0 (-1) = some (fmtHM 0 (-1)))) :=
  C10_format_time_cast 0 (-1) (by decide) (by decide)

/-! ## Claim C4 (`needs_refetch`) -/

/-- Claim C4: `needs_refetch(lat, lng)` is true exactly when there is no
cache, or the cached month tag differs from the current `%b-%Y` tag, or the
haversine distance (for any interpretation of the floating-point
trigonometry) from the cached coordinate exceeds 5.0 km; it is a pure read
of the engine (it returns only a `Bool`). -/
theorem C4_needs_refetch_iff {P : Type} (T : TrigOps) (e : PrayerEngine P)
    (today : Date) (lat lng : ℚ) :
    needs_refetch T e today lat lng = true ↔
      (e.cache = none ∨
       ∃ c, e.cache = some c ∧
         (c.month_hash ≠ fmtMonthTag today ∨
          5 < haversineDistance T c.lat c.lng lat lng)) := by
  rcases hc : e.cache with _ | c
  · simp [needs_refetch, hc]
  · simp only [needs_refetch, hc]
    by_cases hm : c.month_hash = fmtMonthTag today <;>
      by_cases hd : 5 < haversineDistance T c.lat c.lng lat lng <;>
        simp [hm, hd]

/-! ## Claim C3 (`get_today_schedule` source selection) -/

/-- Claim C3: the resolver consults the cache only under the `"JAKIM"`
method (any other method makes the result cache-independent and equal to
the computed fallback); a cache hit yields the `"jakim-api"` schedule whose
zone name goes through the zones table with fallback to the raw code; any
other case yields `none` without coordinates and the
`"calculated-fallback"` schedule (zone label synthesized from the
coordinate) with them. -/
theorem C3_resolve_today_sources {P : Type} (o : AstroOracle P)
    (e : PrayerEngine P) (now : LocalNow) :
    (e.current_method ≠ "JAKIM" →
      get_today_schedule o e now = computed_fallback o e now ∧
      ∀ c', get_today_schedule o { e with cache := c' } now
          = get_today_schedule o e now) ∧
    (∀ c p, e.current_method = "JAKIM" → e.cache = some c →
      lookupPrayers c (fmtDateKey now.date) = some p →
      get_today_schedule o e now = some
        { fajr := p.fajr, syuruk := p.syuruk, dhuhr := p.dhuhr, asr := p.asr,
          maghrib := p.maghrib, isha := p.isha, source := "jakim-api",
          zone_code := c.zone, zone_name := resolve_zone_name e c.zone,
          hijri := p.hijri }) ∧
    (∀ m z code, e.zones = some m → lookupZone m code = some z →
      resolve_zone_name e code = z.daerah ++ ", " ++ z.negeri) ∧
    (∀ m code, e.zones = some m → lookupZone m code = none →
      resolve_zone_name e code = code) ∧
    (∀ code, e.zones = none → resolve_zone_name e code = code) ∧
    ((e.current_method ≠ "JAKIM" ∨ e.cache = none ∨
      ∃ c, e.cache = some c ∧ lookupPrayers c (fmtDateKey now.date) = none) →
      (e.coordinates = none → get_today_schedule o e now = none) ∧
      (∀ coords, e.coordinates = some coords →
        get_today_schedule o e now = some
          { fajr := (o.times now.date coords e.strategy).fajr,
            syuruk := (o.times now.date coords e.strategy).syuruk,
            dhuhr := (o.times now.date coords e.strategy).dhuhr,
            asr := (o.times now.date coords e.strategy).asr,
            maghrib := (o.times now.date coords e.strategy).maghrib,
            isha := (o.times now.date coords e.strategy).isha,
            source := "calculated-fallback", zone_code := "CALC",
            zone_name := o.fmtCoord coords, hijri := none })) := by
  have hfb : ∀ (e' : PrayerEngine P),
      get_today_schedule o e' now = computed_fallback o e' now ∨
      (e'.current_method = "JAKIM" ∧
        ∃ c, e'.cache = some c ∧
          ∃ p, lookupPrayers c (fmtDateKey now.date) = some p) := by
    intro e'
    by_cases hj : e'.current_method = "JAKIM"
    · rcases hc : e'.cache with _ | c
      · exact Or.inl (by simp [get_today_schedule, hj, hc])
      · rcases hp : lookupPrayers c (fmtDateKey now.date) with _ | p
        · exact Or.inl (by simp [get_today_schedule, hj, hc, hp])
        · exact Or.inr ⟨hj, c, rfl, p, hp⟩
    · exact Or.inl (by simp [get_today_schedule, hj])
  refine ⟨fun hm => ⟨?_, fun c' => ?_⟩, fun c p hm hc hp => ?_,
    fun m z code hz hlz => ?_, fun m code hz hlz => ?_, fun code hz => ?_,
    fun hmiss => ⟨fun hco => ?_, fun coords hco => ?_⟩⟩
  · simp [get_today_schedule, hm]
  · simp [get_today_schedule, hm, computed_fallback]
  · simp [get_today_schedule, hm, hc, hp]
  · simp [resolve_zone_name, hz, hlz]
  · simp [resolve_zone_name, hz, hlz]
  · simp [resolve_zone_name, hz]
  · -- no coordinates: every non-hit path is the fallback, which is none
    have : get_today_schedule o e now = computed_fallback o e now := by
      rcases hfb e with h | ⟨hj, c, hc, p, hp⟩
      · exact h
      · rcases hmiss with hm | hcn | ⟨c', hc', hl⟩
        · exact absurd hj hm
        · rw [hcn] at hc; cases hc
        · rw [hc'] at hc
          injection hc with hc
          rw [hc] at hl
          rw [hl] at hp
          cases hp
    rw [this]
    simp [computed_fallback, hco]
  · have : get_today_schedule o e now = computed_fallback o e now := by
      rcases hfb e with h | ⟨hj, c, hc, p, hp⟩
      · exact h
      · rcases hmiss with hm | hcn | ⟨c', hc', hl⟩
        · exact absurd hj hm
        · rw [hcn] at hc; cases hc
        · rw [hc'] at hc
          injection hc with hc
          rw [hc] at hl
          rw [hl] at hp
          cases hp
    rw [this]
    simp [computed_fallback, hco]

/-- Witness for C3: with the fixture zones table, the cache hit on
23-Jan-2026 resolves zone `SGR01` to `"Petaling, Selangor"` and is tagged
`"jakim-api"`. -/
theorem C3_resolve_today_sources_witness :
    get_today_schedule oracle0 engineZ now0 = some
      { fajr := 100, syuruk := 200, dhuhr := 300, asr := 400, maghrib := 500,
        isha := 700, source := "jakim-api", zone_code := "SGR01",
        zone_name := "Petaling, Selangor", hijri := none } := by
  have h := (C3_resolve_today_sources oracle0 engineZ now0).2.1 cache0 point0
    rfl rfl (by decide)
  have hz : resolve_zone_name engineZ cache0.zone = "Petaling, Selangor" := by
    decide
  rw [h, hz]
  rfl

/-! ## Claim C2 (`get_next_prayer` selection and rollover) -/

/-- When every canonical timestamp is ≤ now, the scan finds nothing. -/
theorem find?_prayerPairs_none (sch : PrayerSchedule) (ts : Int)
    (hall : ∀ i : Fin 6, (pairAt sch i).2 ≤ ts) :
    (prayerPairs sch).find? (fun p => ts < p.2) = none := by
  have h0 := not_lt.mpr (hall 0)
  have h1 := not_lt.mpr (hall 1)
  have h2 := not_lt.mpr (hall 2)
  have h3 := not_lt.mpr (hall 3)
  have h4 := not_lt.mpr (hall 4)
  have h5 := not_lt.mpr (hall 5)
  simp only [pairAt] at h0 h1 h2 h3 h4 h5
  simp [prayerPairs, List.find?, h0, h1, h2, h3, h4, h5]

/-- Claim C2: `get_next_prayer` returns the first canonical event whose
timestamp is strictly greater than now, with the remaining time rendered by
`fmtHMS` (integer division) inside `mkNextPrayer`; once all six have
passed it returns tomorrow's fajr — the cached value under tomorrow's date
key when present, else the computed value when coordinates exist, else
nothing — always under the name `"fajr"`. -/
theorem C2_next_event {P : Type} (o : AstroOracle P) (e : PrayerEngine P)
    (now : LocalNow) (sch : PrayerSchedule)
    (hs : get_today_schedule o e now = some sch) :
    (∀ i : Fin 6, now.ts < (pairAt sch i).2 →
      (∀ j : Fin 6, j < i → (pairAt sch j).2 ≤ now.ts) →
      get_next_prayer o e now
        = some (mkNextPrayer o.tz now.ts (pairAt sch i).1 (pairAt sch i).2)) ∧
    ((∀ i : Fin 6, (pairAt sch i).2 ≤ now.ts) →
      (∀ f, cachedFajrFor e (fmtDateKey (nextDate now.date)) = some f →
        get_next_prayer o e now = some (mkNextPrayer o.tz now.ts "fajr" f)) ∧
      (cachedFajrFor e (fmtDateKey (nextDate now.date)) = none →
        (∀ coords, e.coordinates = some coords →
          get_next_prayer o e now = some (mkNextPrayer o.tz now.ts "fajr"
            (o.times (nextDate now.date) coords e.strategy).fajr)) ∧
        (e.coordinates = none → get_next_prayer o e now = none))) := by
  constructor
  · intro i hi hj
    fin_cases i
    · simp only [pairAt] at hi
      simp [get_next_prayer, hs, prayerPairs, List.find?, hi, pairAt]
    · have h0 := hj 0 (by decide)
      simp only [pairAt] at hi h0
      simp [get_next_prayer, hs, prayerPairs, List.find?, not_lt.mpr h0, hi,
        pairAt]
    · have h0 := hj 0 (by decide)
      have h1 := hj 1 (by decide)
      simp only [pairAt] at hi h0 h1
      simp [get_next_prayer, hs, prayerPairs, List.find?, not_lt.mpr h0,
        not_lt.mpr h1, hi, pairAt]
    · have h0 := hj 0 (by decide)
      have h1 := hj 1 (by decide)
      have h2 := hj 2 (by decide)
      simp only [pairAt] at hi h0 h1 h2
      simp [get_next_prayer, hs, prayerPairs, List.find?, not_lt.mpr h0,
        not_lt.mpr h1, not_lt.mpr h2, hi, pairAt]
    · have h0 := hj 0 (by decide)
      have h1 := hj 1 (by decide)
      have h2 := hj 2 (by decide)
      have h3 := hj 3 (by decide)
      simp only [pairAt] at hi h0 h1 h2 h3
      simp [get_next_prayer, hs, prayerPairs, List.find?, not_lt.mpr h0,
        not_lt.mpr h1, not_lt.mpr h2, not_lt.mpr h3, hi, pairAt]
    · have h0 := hj 0 (by decide)
      have h1 := hj 1 (by decide)
      have h2 := hj 2 (by decide)
      have h3 := hj 3 (by decide)
      have h4 := hj 4 (by decide)
      simp only [pairAt] at hi h0 h1 h2 h3 h4
      simp [get_next_prayer, hs, prayerPairs, List.find?, not_lt.mpr h0,
        not_lt.mpr h1, not_lt.mpr h2, not_lt.mpr h3, not_lt.mpr h4, hi, pairAt]
  · intro hall
    have hnone := find?_prayerPairs_none sch now.ts hall
    refine ⟨fun f hf => ?_, fun hcn => ⟨fun coords hco => ?_, fun hco => ?_⟩⟩
    · simp [get_next_prayer, hs, hnone, tomorrowFajr, hf]
    · simp [get_next_prayer, hs, hnone, tomorrowFajr, hcn, hco]
    · simp [get_next_prayer, hs, hnone, tomorrowFajr, hcn, hco]

/-- Witness for C2 at the fixture: at epoch second 100, fajr (100) has
passed and syuruk (200) is the first strictly-future event. -/
theorem C2_next_event_witness :
    get_next_prayer oracle0 engine0 now0
      = some (mkNextPrayer oracle0.tz now0.ts (pairAt sched0 1).1
          (pairAt sched0 1).2) :=
  (C2_next_event oracle0 engine0 now0 sched0 (by decide)).1 1 (by decide)
    (by decide)

/-! ## Claim C7 (non-negative remaining duration) -/

/-- Claim C7, amended: the remaining duration is the difference
`timestamp - now`; in the same-day branch the chosen timestamp is strictly
greater than now, so it is positive; in the rollover branch it is
non-negative only under the extra assumption that the tomorrow-fajr value
(cached or computed) is not in the past — the code does not check this. -/
theorem C7_remaining_nonnegative {P : Type} (o : AstroOracle P)
    (e : PrayerEngine P) (now : LocalNow) (sch : PrayerSchedule)
    (hs : get_today_schedule o e now = some sch) :
    ((∃ i : Fin 6, now.ts < (pairAt sch i).2) →
      ∃ r, get_next_prayer o e now = some r ∧ now.ts < r.timestamp) ∧
    ((∀ i : Fin 6, (pairAt sch i).2 ≤ now.ts) →
      ∀ f, tomorrowFajr o e now = some f → now.ts ≤ f →
        get_next_prayer o e now = some (mkNextPrayer o.tz now.ts "fajr" f) ∧
        now.ts ≤ (mkNextPrayer o.tz now.ts "fajr" f).timestamp) := by
  constructor
  · rintro ⟨i, hi⟩
    have hmem : pairAt sch i ∈ prayerPairs sch := by
      fin_cases i <;> simp [pairAt, prayerPairs]
    have hsome : ((prayerPairs sch).find? (fun p => now.ts < p.2)).isSome := by
      rw [List.find?_isSome]
      exact ⟨pairAt sch i, hmem, by simpa using hi⟩
    rcases hfind : (prayerPairs sch).find? (fun p => now.ts < p.2) with _ | y
    · rw [hfind] at hsome; cases hsome
    · have hy : now.ts < y.2 := by simpa using List.find?_some hfind
      refine ⟨mkNextPrayer o.tz now.ts y.1 y.2, ?_, by simpa [mkNextPrayer]⟩
      simp [get_next_prayer, hs, hfind]
  · intro hall f hf hle
    have hnone := find?_prayerPairs_none sch now.ts hall
    refine ⟨?_, by simpa [mkNextPrayer]⟩
    simp [get_next_prayer, hs, hnone, hf]

/-- Witness for C7 at the fixture engine whose cache holds a well-formed
tomorrow record (fajr at 90000 ≥ 1000). -/
theorem C7_remaining_nonnegative_witness :
    get_next_prayer oracle0 engineGood nowLate
      = some (mkNextPrayer oracle0.tz nowLate.ts "fajr" 90000) ∧
    nowLate.ts ≤ (mkNextPrayer oracle0.tz nowLate.ts "fajr" 90000).timestamp :=
  (C7_remaining_nonnegative oracle0 engineGood nowLate sched0 (by decide)).2
    (by decide) 90000 (by decide) (by decide)

/-- Claim C7 counterexample: with a stale cache entry for tomorrow (fajr at
epoch 10) and the clock at 1000 past all six of today's events, the
rollover result has timestamp 10 < now, and the rendered remaining string
is `"00:-16:-30"` — the seconds difference is negative. -/
theorem C7_counterexample_negative_remaining :
    get_next_prayer oracle0 engineTom nowLate
      = some { name := "fajr", time := "00:00", remaining := "00:-16:-30",
               timestamp := 10 } ∧
    (10 : Int) - nowLate.ts < 0 := by
  refine ⟨by decide, by decide⟩

/-! ## Scheduler infrastructure lemmas -/

theorem countNotif_nil (n : String) : countNotif n [] = 0 := rfl

theorem countAudio_nil (n : String) : countAudio n [] = 0 := rfl

theorem countNotif_cons (n : String) (eff : Effect) (l : List Effect) :
    countNotif n (eff :: l)
      = (if isNotifFor n eff then 1 else 0) + countNotif n l := by
  simp only [countNotif, List.filter_cons]
  split <;> simp [Nat.add_comm]

theorem countAudio_cons (n : String) (eff : Effect) (l : List Effect) :
    countAudio n (eff :: l)
      = (if isAudioFor n eff then 1 else 0) + countAudio n l := by
  simp only [countAudio, List.filter_cons]
  split <;> simp [Nat.add_comm]

theorem countNotif_append (n : String) (l1 l2 : List Effect) :
    countNotif n (l1 ++ l2) = countNotif n l1 + countNotif n l2 := by
  simp [countNotif, List.filter_append]

theorem countAudio_append (n : String) (l1 l2 : List Effect) :
    countAudio n (l1 ++ l2) = countAudio n l1 + countAudio n l2 := by
  simp [countAudio, List.filter_append]

/-- A trace all of whose elements fail both classifiers counts zero. -/
theorem counts_zero_of_no_alert (n : String) (l : List Effect)
    (h : ∀ eff ∈ l, isAlertFor n eff = false) :
    countNotif n l = 0 ∧ countAudio n l = 0 := by
  induction l with
  | nil => exact ⟨rfl, rfl⟩
  | cons eff rest ih =>
    have hh := h eff (List.mem_cons_self eff rest)
    have hrest := ih (fun x hx => h x (List.mem_cons_of_mem eff hx))
    have hn : isNotifFor n eff = false := by
      cases eff <;> simp_all [isAlertFor, isNotifFor]
    have ha : isAudioFor n eff = false := by
      cases eff <;> simp_all [isAlertFor, isAudioFor]
    rw [countNotif_cons, countAudio_cons, hn, ha]
    simp [hrest.1, hrest.2]

/-- Every effect of the wake-recovery loop is a `markTriggered`. -/
theorem wakeMark_marks_only (nowTs : Int) (l : List (String × Int)) :
    ∀ (tr : List String), ∀ eff ∈ (wakeMark nowTs l tr).2,
      ∃ n, eff = Effect.markTriggered n := by
  induction l with
  | nil => intro tr eff h; simp [wakeMark] at h
  | cons p rest ih =>
    obtain ⟨n, t⟩ := p
    intro tr eff h
    simp only [wakeMark] at h
    split at h
    · simp only [List.mem_cons] at h
      rcases h with rfl | h
      · exact ⟨n, rfl⟩
      · exact ih (List.insert n tr) eff h
    · exact ih tr eff h

/-- The wake-recovery loop only grows the triggered set. -/
theorem wakeMark_mono (nowTs : Int) (l : List (String × Int)) :
    ∀ (tr : List String) (x : String), x ∈ tr → x ∈ (wakeMark nowTs l tr).1 := by
  induction l with
  | nil => intro tr x hx; simpa [wakeMark] using hx
  | cons p rest ih =>
    obtain ⟨n, t⟩ := p
    intro tr x hx
    simp only [wakeMark]
    split
    · exact ih _ x (List.mem_insert_of_mem hx)
    · exact ih tr x hx

/-- After the wake-recovery loop, every strictly past event of the list is
in the triggered set. -/
theorem wakeMark_past_mem (nowTs : Int) (l : List (String × Int)) :
    ∀ (tr : List String), ∀ p ∈ l, p.2 < nowTs →
      p.1 ∈ (wakeMark nowTs l tr).1 := by
  induction l with
  | nil => intro tr p hp; simp at hp
  | cons q rest ih =>
    obtain ⟨n, t⟩ := q
    intro tr p hp hpast
    simp only [List.mem_cons] at hp
    rcases hp with rfl | hp
    · simp only [wakeMark]
      split
      · exact wakeMark_mono nowTs rest _ n (List.mem_insert_self n tr)
      · rename_i hc
        have hmem : n ∈ tr := by
          by_contra hmem
          exact hc ⟨hpast, hmem⟩
        exact wakeMark_mono nowTs rest tr n hmem
    · simp only [wakeMark]
      split
      · exact ih _ p hp hpast
      · exact ih tr p hp hpast

/-- Alert effects never appear in the wake step's trace. -/
theorem wakeStep_no_alert (detected : Bool) (sched : Option PrayerSchedule)
    (nowTs : Int) (tr : List String) :
    ∀ eff ∈ (wakeStep detected sched nowTs tr).2, ∀ n,
      isAlertFor n eff = false := by
  intro eff h n
  cases detected with
  | false => simp [wakeStep] at h
  | true =>
    cases sched with
    | none =>
      simp only [wakeStep, if_true] at h
      rcases List.mem_singleton.mp h with rfl
      rfl
    | some s =>
      simp only [wakeStep, if_true] at h
      rcases List.mem_append.mp h with h | h
      · obtain ⟨m, rfl⟩ := wakeMark_marks_only nowTs (prayerPairs s) tr eff h
        rfl
      · rcases List.mem_singleton.mp h with rfl
        rfl

/-- Every effect of the display step is a tray update or a frontend
`prayer-update`. -/
theorem displayStep_shapes (next : Option NextPrayer) (f t : Bool) :
    ∀ eff ∈ displayStep next f t,
      (∃ s, eff = Effect.trayUpdate s) ∨ ∃ v, eff = Effect.prayerUpdate v := by
  intro eff h
  cases next with
  | none => exact absurd h (List.not_mem_nil eff)
  | some v =>
    simp only [displayStep] at h
    rcases List.mem_append.mp h with h | h
    · split at h
      · rcases List.mem_singleton.mp h with rfl
        exact Or.inl ⟨_, rfl⟩
      · exact absurd h (List.not_mem_nil eff)
    · rcases List.mem_singleton.mp h with rfl
      exact Or.inr ⟨v, rfl⟩

/-- Every effect of the reminder step is a reminder trigger or a window
show. -/
theorem reminderStep_shapes (now : LocalNow) (stg : UserSettings) (w : Bool) :
    ∀ eff ∈ reminderStep now stg w,
      eff = Effect.reminderTrigger now.hm ∨ eff = Effect.showWindow := by
  intro eff h
  simp only [reminderStep] at h
  split at h
  · split at h
    · rcases List.mem_cons.mp h with rfl | h
      · exact Or.inl rfl
      · split at h
        · rcases List.mem_singleton.mp h with rfl
          exact Or.inr rfl
        · exact absurd h (List.not_mem_nil eff)
    · exact absurd h (List.not_mem_nil eff)
  · exact absurd h (List.not_mem_nil eff)

/-- Alert effects never appear in the display step's trace. -/
theorem displayStep_no_alert (next : Option NextPrayer) (f t : Bool) :
    ∀ eff ∈ displayStep next f t, ∀ n, isAlertFor n eff = false := by
  intro eff h n
  rcases displayStep_shapes next f t eff h with ⟨s, rfl⟩ | ⟨v, rfl⟩ <;> rfl

/-- Alert effects never appear in the reminder step's trace. -/
theorem reminderStep_no_alert (now : LocalNow) (stg : UserSettings) (w : Bool) :
    ∀ eff ∈ reminderStep now stg w, ∀ n, isAlertFor n eff = false := by
  intro eff h n
  rcases reminderStep_shapes now stg w eff h with rfl | rfl <;> rfl

/-- The wake signal never appears in the display or reminder steps. -/
theorem wakeSignal_not_in_display_reminder (next : Option NextPrayer)
    (f t : Bool) (now : LocalNow) (stg : UserSettings) (w : Bool) :
    Effect.wakeSignal ∉ displayStep next f t ∧
    Effect.wakeSignal ∉ reminderStep now stg w := by
  constructor
  · intro h
    rcases displayStep_shapes next f t _ h with ⟨s, hs⟩ | ⟨v, hv⟩ <;> simp_all
  · intro h
    rcases reminderStep_shapes now stg w _ h with hs | hs <;> simp_all

/-- Firing an event emits at most one notification and at most one audio
invocation for any name, and none at all for a different name. -/
theorem fireEffects_counts (stg : UserSettings) (a r : Bool) (m n : String) :
    countNotif n (fireEffects stg a r m) ≤ 1 ∧
    countAudio n (fireEffects stg a r m) ≤ 1 ∧
    (m ≠ n → countNotif n (fireEffects stg a r m) = 0 ∧
      countAudio n (fireEffects stg a r m) = 0) := by
  simp only [fireEffects]
  split <;> split <;>
    simp [countNotif_cons, countNotif_append, countAudio_cons,
      countAudio_append, countNotif_nil, countAudio_nil, isNotifFor,
      isAudioFor] <;>
    split_ifs <;> simp_all

/-- Firing an event emits only marks, notifications and audio (never a wake
signal). -/
theorem fireEffects_shapes (stg : UserSettings) (a r : Bool) (m : String) :
    ∀ eff ∈ fireEffects stg a r m,
      eff = Effect.markTriggered m ∨ eff = Effect.notification m ∨
      ∃ f, eff = Effect.audio m f := by
  intro eff h
  simp only [fireEffects] at h
  rcases List.mem_cons.mp h with rfl | h
  · exact Or.inl rfl
  · rcases List.mem_append.mp h with h | h
    · split at h
      · rcases List.mem_singleton.mp h with rfl
        exact Or.inr (Or.inl rfl)
      · exact absurd h (List.not_mem_nil eff)
    · split at h
      · rcases List.mem_singleton.mp h with rfl
        exact Or.inr (Or.inr ⟨_, rfl⟩)
      · exact absurd h (List.not_mem_nil eff)

/-- Firing a non-`syuruk` event never emits a `syuruk` alert, and firing
`syuruk` emits no alert at all. -/
theorem fireEffects_no_syuruk_alert (stg : UserSettings) (a r : Bool)
    (m : String) :
    ∀ eff ∈ fireEffects stg a r m, isAlertFor "syuruk" eff = false := by
  intro eff h
  by_cases hm : m = "syuruk"
  · subst hm
    simp [fireEffects] at h
    subst h
    rfl
  · rcases fireEffects_shapes stg a r m eff h with rfl | rfl | ⟨f, rfl⟩
    · rfl
    · simp [isAlertFor, hm]
    · simp [isAlertFor, hm]

/-- The trigger loop only grows the triggered set. -/
theorem triggerLoop_mono (stg : UserSettings) (a r : Bool) (ts : Int)
    (l : List (String × Int)) :
    ∀ (tr : List String) (x : String), x ∈ tr →
      x ∈ (triggerLoop stg a r ts l tr).1 := by
  induction l with
  | nil => intro tr x hx; simpa [triggerLoop] using hx
  | cons p rest ih =>
    obtain ⟨m, u⟩ := p
    intro tr x hx
    simp only [triggerLoop]
    split
    · exact ih _ x (List.mem_insert_of_mem hx)
    · exact ih tr x hx

/-- Any event of the list whose window contains now is in the triggered set
after the trigger loop. -/
theorem triggerLoop_window_mem (stg : UserSettings) (a r : Bool) (ts : Int)
    (l : List (String × Int)) :
    ∀ (tr : List String), ∀ p ∈ l, p.2 ≤ ts → ts < p.2 + 2 →
      p.1 ∈ (triggerLoop stg a r ts l tr).1 := by
  induction l with
  | nil => intro tr p hp; simp at hp
  | cons q rest ih =>
    obtain ⟨m, u⟩ := q
    intro tr p hp h1 h2
    simp only [List.mem_cons] at hp
    rcases hp with rfl | hp
    · simp only [triggerLoop]
      split
      · exact triggerLoop_mono stg a r ts rest _ m (List.mem_insert_self m tr)
      · rename_i hc
        have hmem : m ∈ tr := by
          by_contra hmem
          exact hc ⟨⟨h1, h2⟩, hmem⟩
        exact triggerLoop_mono stg a r ts rest tr m hmem
    · simp only [triggerLoop]
      split
      · exact ih _ p hp h1 h2
      · exact ih tr p hp h1 h2

/-- A name already in the triggered set is never re-fired by the trigger
loop: zero alert effects for it, and it stays in the set. -/
theorem triggerLoop_already_triggered (stg : UserSettings) (a r : Bool)
    (ts : Int) (n : String) (l : List (String × Int)) :
    ∀ (tr : List String), n ∈ tr →
      countNotif n (triggerLoop stg a r ts l tr).2 = 0 ∧
      countAudio n (triggerLoop stg a r ts l tr).2 = 0 ∧
      n ∈ (triggerLoop stg a r ts l tr).1 := by
  induction l with
  | nil =>
    intro tr hn
    exact ⟨rfl, rfl, by simpa [triggerLoop] using hn⟩
  | cons q rest ih =>
    obtain ⟨m, u⟩ := q
    intro tr hn
    simp only [triggerLoop]
    split
    · rename_i hc
      have hmn : m ≠ n := fun h => hc.2 (h ▸ hn)
      have hrec := ih (List.insert m tr) (List.mem_insert_of_mem hn)
      have hfire := (fireEffects_counts stg a r m n).2.2 hmn
      refine ⟨?_, ?_, hrec.2.2⟩
      · rw [countNotif_append, hfire.1, hrec.1]
      · rw [countAudio_append, hfire.2, hrec.2.1]
    · exact ih tr hn

/-- The trigger loop fires each name at most once: at most one notification
and at most one audio invocation per name. -/
theorem triggerLoop_counts_le_one (stg : UserSettings) (a r : Bool)
    (ts : Int) (n : String) (l : List (String × Int)) :
    ∀ (tr : List String),
      countNotif n (triggerLoop stg a r ts l tr).2 ≤ 1 ∧
      countAudio n (triggerLoop stg a r ts l tr).2 ≤ 1 := by
  induction l with
  | nil => intro tr; exact ⟨by simp [triggerLoop, countNotif_nil],
      by simp [triggerLoop, countAudio_nil]⟩
  | cons q rest ih =>
    obtain ⟨m, u⟩ := q
    intro tr
    simp only [triggerLoop]
    split
    · by_cases hmn : m = n
      · subst hmn
        have hrec := triggerLoop_already_triggered stg a r ts m rest
          (List.insert m tr) (List.mem_insert_self m tr)
        have hfire := fireEffects_counts stg a r m m
        constructor
        · rw [countNotif_append, hrec.1]
          omega
        · rw [countAudio_append, hrec.2.1]
          omega
      · have hfire := (fireEffects_counts stg a r m n).2.2 hmn
        have hrec := ih (List.insert m tr)
        constructor
        · rw [countNotif_append, hfire.1]
          omega
        · rw [countAudio_append, hfire.2]
          omega
    · exact ih tr

/-- If the trigger loop emitted any alert for a name, that name is in the
triggered set afterwards. -/
theorem triggerLoop_mem_of_alert (stg : UserSettings) (a r : Bool)
    (ts : Int) (n : String) (l : List (String × Int)) :
    ∀ (tr : List String),
      1 ≤ countNotif n (triggerLoop stg a r ts l tr).2
        + countAudio n (triggerLoop stg a r ts l tr).2 →
      n ∈ (triggerLoop stg a r ts l tr).1 := by
  induction l with
  | nil => intro tr h; simp [triggerLoop, countNotif_nil, countAudio_nil] at h
  | cons q rest ih =>
    obtain ⟨m, u⟩ := q
    intro tr h
    simp only [triggerLoop] at h ⊢
    split at h <;> rename_i hc
    · dsimp only at h
      rw [if_pos hc]
      by_cases hmn : m = n
      · subst hmn
        exact triggerLoop_mono stg a r ts rest _ m (List.mem_insert_self m tr)
      · have hfire := (fireEffects_counts stg a r m n).2.2 hmn
        rw [countNotif_append, countAudio_append, hfire.1, hfire.2] at h
        exact ih (List.insert m tr) (by omega)
    · rw [if_neg hc]
      exact ih tr h

/-- If the trigger loop emitted any alert for a name, some event of the
list has that name, its window contains now, and the name was not yet
triggered. -/
theorem triggerLoop_alert_window (stg : UserSettings) (a r : Bool)
    (ts : Int) (n : String) (l : List (String × Int)) :
    ∀ (tr : List String),
      1 ≤ countNotif n (triggerLoop stg a r ts l tr).2
        + countAudio n (triggerLoop stg a r ts l tr).2 →
      ∃ u, (n, u) ∈ l ∧ u ≤ ts ∧ ts < u + 2 ∧ n ∉ tr := by
  induction l with
  | nil => intro tr h; simp [triggerLoop, countNotif_nil, countAudio_nil] at h
  | cons q rest ih =>
    obtain ⟨m, u⟩ := q
    intro tr h
    simp only [triggerLoop] at h
    split at h <;> rename_i hc
    · dsimp only at h
      by_cases hmn : m = n
      · subst hmn
        exact ⟨u, List.mem_cons_self _ _, hc.1.1, hc.1.2, hc.2⟩
      · have hfire := (fireEffects_counts stg a r m n).2.2 hmn
        rw [countNotif_append, countAudio_append, hfire.1, hfire.2] at h
        obtain ⟨u', hmem, h1, h2, hnotin⟩ := ih (List.insert m tr) (by omega)
        refine ⟨u', List.mem_cons_of_mem _ hmem, h1, h2, fun hin => ?_⟩
        exact hnotin (List.mem_insert_of_mem hin)
    · obtain ⟨u', hmem, h1, h2, hnotin⟩ := ih tr h
      exact ⟨u', List.mem_cons_of_mem _ hmem, h1, h2, hnotin⟩

/-- The trigger loop never emits a `syuruk` alert. -/
theorem triggerLoop_no_syuruk (stg : UserSettings) (a r : Bool) (ts : Int)
    (l : List (String × Int)) :
    ∀ (tr : List String), ∀ eff ∈ (triggerLoop stg a r ts l tr).2,
      isAlertFor "syuruk" eff = false := by
  induction l with
  | nil => intro tr eff h; simp [triggerLoop] at h
  | cons q rest ih =>
    obtain ⟨m, u⟩ := q
    intro tr eff h
    simp only [triggerLoop] at h
    split at h
    · rcases List.mem_append.mp h with h | h
      · exact fireEffects_no_syuruk_alert stg a r m eff h
      · exact ih _ eff h
    · exact ih tr eff h

/-- The trigger loop never emits a wake signal. -/
theorem triggerLoop_no_wakeSignal (stg : UserSettings) (a r : Bool) (ts : Int)
    (l : List (String × Int)) :
    ∀ (tr : List String), Effect.wakeSignal ∉ (triggerLoop stg a r ts l tr).2 := by
  induction l with
  | nil => intro tr h; simp [triggerLoop] at h
  | cons q rest ih =>
    obtain ⟨m, u⟩ := q
    intro tr h
    simp only [triggerLoop] at h
    split at h
    · rcases List.mem_append.mp h with h | h
      · rcases fireEffects_shapes stg a r m _ h with hs | hs | ⟨f, hs⟩ <;>
          cases hs
      · exact ih _ h
    · exact ih tr h

/-- After the rollover block, `last_date` is always the current date. -/
theorem rollover_lastDate (tr : List String) (last : Option Date) (d : Date) :
    (rollover tr last d).2 = some d := by
  unfold rollover
  split
  · rename_i h
    exact h
  · rfl

/-- The rollover block clears exactly when the date differs. -/
theorem rollover_cases (tr : List String) (last : Option Date) (d : Date) :
    (last = some d → rollover tr last d = (tr, last)) ∧
    (last ≠ some d → rollover tr last d = ([], some d)) := by
  constructor <;> intro h <;> simp [rollover, h]

/-- The wake step only grows the triggered set. -/
theorem wakeStep_mono (detected : Bool) (sched : Option PrayerSchedule)
    (nowTs : Int) (tr : List String) (x : String) (hx : x ∈ tr) :
    x ∈ (wakeStep detected sched nowTs tr).1 := by
  cases detected with
  | false => simpa [wakeStep] using hx
  | true =>
    cases sched with
    | none => simpa [wakeStep] using hx
    | some s =>
      simp only [wakeStep, if_true]
      exact wakeMark_mono nowTs (prayerPairs s) tr x hx

/-- The wake step emits no alert effects, hence counts zero. -/
theorem wakeStep_counts_zero (detected : Bool) (sched : Option PrayerSchedule)
    (nowTs : Int) (tr : List String) (n : String) :
    countNotif n (wakeStep detected sched nowTs tr).2 = 0 ∧
    countAudio n (wakeStep detected sched nowTs tr).2 = 0 :=
  counts_zero_of_no_alert n _
    (fun eff h => wakeStep_no_alert detected sched nowTs tr eff h n)

/-- The display step counts zero alerts. -/
theorem displayStep_counts_zero (next : Option NextPrayer) (f t : Bool)
    (n : String) :
    countNotif n (displayStep next f t) = 0 ∧
    countAudio n (displayStep next f t) = 0 :=
  counts_zero_of_no_alert n _ (fun eff h => displayStep_no_alert next f t eff h n)

/-- The reminder step counts zero alerts. -/
theorem reminderStep_counts_zero (now : LocalNow) (stg : UserSettings)
    (w : Bool) (n : String) :
    countNotif n (reminderStep now stg w) = 0 ∧
    countAudio n (reminderStep now stg w) = 0 :=
  counts_zero_of_no_alert n _ (fun eff h => reminderStep_no_alert now stg w eff h n)

/-- Prepending an alert-free prefix preserves the mark-precedes-alert
property. -/
theorem markPrecedesAlert_append (n : String) (l1 l2 : List Effect)
    (h1 : ∀ eff ∈ l1, isAlertFor n eff = false)
    (h2 : markPrecedesAlert n l2 = true) :
    markPrecedesAlert n (l1 ++ l2) = true := by
  induction l1 with
  | nil => simpa using h2
  | cons eff rest ih =>
    have hh := h1 eff (List.mem_cons_self eff rest)
    have ihh := ih (fun x hx => h1 x (List.mem_cons_of_mem eff hx))
    cases eff with
    | markTriggered m =>
      by_cases hmn : m = n
      · simp [markPrecedesAlert, hmn]
      · simpa [markPrecedesAlert, hmn] using ihh
    | wakeSignal => simpa [markPrecedesAlert, isAlertFor] using ihh
    | trayUpdate s => simpa [markPrecedesAlert, isAlertFor] using ihh
    | prayerUpdate v => simpa [markPrecedesAlert, isAlertFor] using ihh
    | notification m => simpa [markPrecedesAlert, hh] using ihh
    | audio m f => simpa [markPrecedesAlert, hh] using ihh
    | reminderTrigger s => simpa [markPrecedesAlert, isAlertFor] using ihh
    | showWindow => simpa [markPrecedesAlert, isAlertFor] using ihh

/-- The effects of firing the very name `n` start with its mark. -/
theorem markPrecedesAlert_fire_self (n : String) (stg : UserSettings)
    (a r : Bool) (rest : List Effect) :
    markPrecedesAlert n (fireEffects stg a r n ++ rest) = true := by
  simp [fireEffects, markPrecedesAlert]

/-- The effects of firing a different name step over to the rest. -/
theorem markPrecedesAlert_fire_other (n m : String) (hmn : m ≠ n)
    (stg : UserSettings) (a r : Bool) (rest : List Effect) :
    markPrecedesAlert n (fireEffects stg a r m ++ rest)
      = markPrecedesAlert n rest := by
  simp only [fireEffects, List.cons_append, markPrecedesAlert, hmn, if_false]
  split_ifs <;> simp [markPrecedesAlert, isAlertFor, hmn]

/-- In the trigger loop's trace, every alert for a name is preceded by that
name's insertion mark. -/
theorem triggerLoop_markPrecedes (stg : UserSettings) (a r : Bool) (ts : Int)
    (n : String) (l : List (String × Int)) :
    ∀ (tr : List String),
      markPrecedesAlert n (triggerLoop stg a r ts l tr).2 = true := by
  induction l with
  | nil => intro tr; rfl
  | cons q rest ih =>
    obtain ⟨m, u⟩ := q
    intro tr
    simp only [triggerLoop]
    split
    · dsimp only
      by_cases hmn : m = n
      · subst hmn
        exact markPrecedesAlert_fire_self m stg a r _
      · rw [markPrecedesAlert_fire_other n m hmn]
        exact ih _
    · exact ih tr

/-- One tick, written out as its five blocks (definitional). -/
theorem tick_eq {P : Type} (o : AstroOracle P) (e : PrayerEngine P)
    (s : SchedState) (inp : TickInput) :
    tick o e s inp =
      ({ triggered := (triggerStep inp.settings inp.audioAvailable
            inp.resourceOk inp.now.ts (get_today_schedule o e inp.now)
            (rollover (wakeStep (detectWake s.lastTick inp.nowInstant)
                (get_today_schedule o e inp.now) inp.now.ts s.triggered).1
              s.lastDate inp.now.date).1).1,
         lastDate := (rollover (wakeStep (detectWake s.lastTick inp.nowInstant)
              (get_today_schedule o e inp.now) inp.now.ts s.triggered).1
            s.lastDate inp.now.date).2,
         lastTick := some inp.nowInstant },
       (wakeStep (detectWake s.lastTick inp.nowInstant)
          (get_today_schedule o e inp.now) inp.now.ts s.triggered).2 ++
       displayStep (get_next_prayer o e inp.now) inp.now.isFriday inp.trayOk ++
       (triggerStep inp.settings inp.audioAvailable inp.resourceOk inp.now.ts
          (get_today_schedule o e inp.now)
          (rollover (wakeStep (detectWake s.lastTick inp.nowInstant)
              (get_today_schedule o e inp.now) inp.now.ts s.triggered).1
            s.lastDate inp.now.date).1).2 ++
       reminderStep inp.now inp.settings inp.windowOk) := rfl

/-- After any tick, `last_date` is the tick's date. -/
theorem tick_lastDate_eq {P : Type} (o : AstroOracle P) (e : PrayerEngine P)
    (s : SchedState) (inp : TickInput) :
    (tick o e s inp).1.lastDate = some inp.now.date := by
  rw [tick_eq]
  exact rollover_lastDate _ _ _

/-- One tick fires each event name at most once (≤ 1 notification and ≤ 1
audio invocation). -/
theorem tick_counts_le_one {P : Type} (o : AstroOracle P) (e : PrayerEngine P)
    (s : SchedState) (inp : TickInput) (n : String) :
    countNotif n (tick o e s inp).2 ≤ 1 ∧
    countAudio n (tick o e s inp).2 ≤ 1 := by
  rw [tick_eq]
  dsimp only
  rw [countNotif_append, countNotif_append, countNotif_append,
    countAudio_append, countAudio_append, countAudio_append,
    (wakeStep_counts_zero _ _ _ _ n).1, (wakeStep_counts_zero _ _ _ _ n).2,
    (displayStep_counts_zero _ _ _ n).1, (displayStep_counts_zero _ _ _ n).2,
    (reminderStep_counts_zero _ _ _ n).1, (reminderStep_counts_zero _ _ _ n).2]
  rcases hsch : get_today_schedule o e inp.now with _ | sch
  · simp [triggerStep, countNotif_nil, countAudio_nil]
  · simp only [triggerStep]
    have h := triggerLoop_counts_le_one inp.settings inp.audioAvailable
      inp.resourceOk inp.now.ts n (prayerPairs sch)
    constructor
    · simpa using (h _).1
    · simpa using (h _).2

/-- An event already triggered on the current date is never re-fired by a
tick of the same date, and stays triggered. -/
theorem tick_already_triggered {P : Type} (o : AstroOracle P)
    (e : PrayerEngine P) (s : SchedState) (inp : TickInput) (n : String)
    (hmem : n ∈ s.triggered) (hdate : s.lastDate = some inp.now.date) :
    countNotif n (tick o e s inp).2 = 0 ∧
    countAudio n (tick o e s inp).2 = 0 ∧
    n ∈ (tick o e s inp).1.triggered := by
  rw [tick_eq]
  dsimp only
  rw [countNotif_append, countNotif_append, countNotif_append,
    countAudio_append, countAudio_append, countAudio_append,
    (wakeStep_counts_zero _ _ _ _ n).1, (wakeStep_counts_zero _ _ _ _ n).2,
    (displayStep_counts_zero _ _ _ n).1, (displayStep_counts_zero _ _ _ n).2,
    (reminderStep_counts_zero _ _ _ n).1, (reminderStep_counts_zero _ _ _ n).2,
    (rollover_cases _ _ _).1 hdate]
  have hw : n ∈ (wakeStep (detectWake s.lastTick inp.nowInstant)
      (get_today_schedule o e inp.now) inp.now.ts s.triggered).1 :=
    wakeStep_mono _ _ _ _ n hmem
  rcases hsch : get_today_schedule o e inp.now with _ | sch
  · rw [hsch] at hw
    exact ⟨rfl, rfl, by simpa [triggerStep] using hw⟩
  · rw [hsch] at hw
    simp only [triggerStep]
    have h := triggerLoop_already_triggered inp.settings inp.audioAvailable
      inp.resourceOk inp.now.ts n (prayerPairs sch) _ hw
    exact ⟨by omega, by omega, h.2.2⟩

/-- If a tick fired any alert for an event, the event is in the triggered
set after the tick. -/
theorem tick_mem_of_alert {P : Type} (o : AstroOracle P) (e : PrayerEngine P)
    (s : SchedState) (inp : TickInput) (n : String)
    (h : 1 ≤ countNotif n (tick o e s inp).2 + countAudio n (tick o e s inp).2) :
    n ∈ (tick o e s inp).1.triggered := by
  rw [tick_eq] at h ⊢
  dsimp only at h ⊢
  rw [countNotif_append, countNotif_append, countNotif_append,
    countAudio_append, countAudio_append, countAudio_append,
    (wakeStep_counts_zero _ _ _ _ n).1, (wakeStep_counts_zero _ _ _ _ n).2,
    (displayStep_counts_zero _ _ _ n).1, (displayStep_counts_zero _ _ _ n).2,
    (reminderStep_counts_zero _ _ _ n).1, (reminderStep_counts_zero _ _ _ n).2]
    at h
  rcases hsch : get_today_schedule o e inp.now with _ | sch
  · rw [hsch] at h
    simp [triggerStep, countNotif_nil, countAudio_nil] at h
  · rw [hsch] at h
    simp only [triggerStep] at h ⊢
    exact triggerLoop_mem_of_alert inp.settings inp.audioAvailable
      inp.resourceOk inp.now.ts n (prayerPairs sch) _ (by omega)

/-- A run over a fixed date starting from a state where `n` is already
triggered for that date fires no alert for `n` at all. -/
theorem runTicks_already_triggered {P : Type} (o : AstroOracle P) (n : String)
    (d : Date) :
    ∀ (ins : List (PrayerEngine P × TickInput)) (s : SchedState),
      n ∈ s.triggered → s.lastDate = some d →
      (∀ x ∈ ins, x.2.now.date = d) →
      countNotif n (runTicks o s ins).2 = 0 ∧
      countAudio n (runTicks o s ins).2 = 0 := by
  intro ins
  induction ins with
  | nil => intro s _ _ _; exact ⟨rfl, rfl⟩
  | cons x rest ih =>
    obtain ⟨e, inp⟩ := x
    intro s hmem hdate hdates
    have hd : inp.now.date = d := hdates (e, inp) (List.mem_cons_self _ _)
    have htick := tick_already_triggered o e s inp n hmem (hd ▸ hdate)
    have hnext := ih (tick o e s inp).1 htick.2.2
      (by rw [tick_lastDate_eq, hd])
      (fun x hx => hdates x (List.mem_cons_of_mem _ hx))
    simp only [runTicks]
    rw [countNotif_append, countAudio_append, htick.1, htick.2.1,
      hnext.1, hnext.2]
    exact ⟨rfl, rfl⟩

/-- An alert-free trace vacuously satisfies mark-precedes-alert. -/
theorem markPrecedesAlert_of_no_alert (n : String) (l : List Effect)
    (h : ∀ eff ∈ l, isAlertFor n eff = false) :
    markPrecedesAlert n l = true := by
  induction l with
  | nil => rfl
  | cons eff rest ih =>
    have hh := h eff (List.mem_cons_self eff rest)
    have ihh := ih (fun x hx => h x (List.mem_cons_of_mem eff hx))
    cases eff with
    | markTriggered m =>
      by_cases hmn : m = n <;> simp [markPrecedesAlert, hmn, ihh]
    | wakeSignal => simpa [markPrecedesAlert, isAlertFor] using ihh
    | trayUpdate s => simpa [markPrecedesAlert, isAlertFor] using ihh
    | prayerUpdate v => simpa [markPrecedesAlert, isAlertFor] using ihh
    | notification m => simpa [markPrecedesAlert, hh] using ihh
    | audio m f => simpa [markPrecedesAlert, hh] using ihh
    | reminderTrigger s => simpa [markPrecedesAlert, isAlertFor] using ihh
    | showWindow => simpa [markPrecedesAlert, isAlertFor] using ihh

/-- Appending an alert-free suffix preserves mark-precedes-alert. -/
theorem markPrecedesAlert_append_right (n : String) (l1 l2 : List Effect)
    (h1 : markPrecedesAlert n l1 = true)
    (h2 : ∀ eff ∈ l2, isAlertFor n eff = false) :
    markPrecedesAlert n (l1 ++ l2) = true := by
  induction l1 with
  | nil => exact markPrecedesAlert_of_no_alert n l2 h2
  | cons eff rest ih =>
    cases eff with
    | markTriggered m =>
      by_cases hmn : m = n
      · simp [markPrecedesAlert, hmn]
      · simp only [markPrecedesAlert, hmn, if_false, List.cons_append] at h1 ⊢
        exact ih h1
    | wakeSignal =>
      simp only [markPrecedesAlert, List.cons_append, Bool.and_eq_true] at h1 ⊢
      exact ⟨h1.1, ih h1.2⟩
    | trayUpdate s =>
      simp only [markPrecedesAlert, List.cons_append, Bool.and_eq_true] at h1 ⊢
      exact ⟨h1.1, ih h1.2⟩
    | prayerUpdate v =>
      simp only [markPrecedesAlert, List.cons_append, Bool.and_eq_true] at h1 ⊢
      exact ⟨h1.1, ih h1.2⟩
    | notification m =>
      simp only [markPrecedesAlert, List.cons_append, Bool.and_eq_true] at h1 ⊢
      exact ⟨h1.1, ih h1.2⟩
    | audio m f =>
      simp only [markPrecedesAlert, List.cons_append, Bool.and_eq_true] at h1 ⊢
      exact ⟨h1.1, ih h1.2⟩
    | reminderTrigger s =>
      simp only [markPrecedesAlert, List.cons_append, Bool.and_eq_true] at h1 ⊢
      exact ⟨h1.1, ih h1.2⟩
    | showWindow =>
      simp only [markPrecedesAlert, List.cons_append, Bool.and_eq_true] at h1 ⊢
      exact ⟨h1.1, ih h1.2⟩

/-- On a wake tick, the wake signal is in the wake step's trace. -/
theorem wakeStep_wakeSignal_mem (sched : Option PrayerSchedule) (ts : Int)
    (tr : List String) :
    Effect.wakeSignal ∈ (wakeStep true sched ts tr).2 := by
  cases sched <;> simp [wakeStep]

/-- Over any run of ticks sharing one local date, each event name receives
at most one notification and at most one audio invocation. -/
theorem runTicks_counts_le_one {P : Type} (o : AstroOracle P) (n : String)
    (d : Date) :
    ∀ (ins : List (PrayerEngine P × TickInput)) (s : SchedState),
      (∀ x ∈ ins, x.2.now.date = d) →
      countNotif n (runTicks o s ins).2 ≤ 1 ∧
      countAudio n (runTicks o s ins).2 ≤ 1 := by
  intro ins
  induction ins with
  | nil =>
    intro s _
    exact ⟨Nat.zero_le 1, Nat.zero_le 1⟩
  | cons x rest ih =>
    obtain ⟨e, inp⟩ := x
    intro s hdates
    have hd : inp.now.date = d := hdates (e, inp) (List.mem_cons_self _ _)
    have hrest : ∀ x ∈ rest, x.2.now.date = d :=
      fun x hx => hdates x (List.mem_cons_of_mem _ hx)
    simp only [runTicks]
    rw [countNotif_append, countAudio_append]
    by_cases halert : 1 ≤ countNotif n (tick o e s inp).2
        + countAudio n (tick o e s inp).2
    · have hmem := tick_mem_of_alert o e s inp n halert
      have hzero := runTicks_already_triggered o n d rest (tick o e s inp).1
        hmem (by rw [tick_lastDate_eq, hd]) hrest
      have hle := tick_counts_le_one o e s inp n
      rw [hzero.1, hzero.2]
      omega
    · have h0 : countNotif n (tick o e s inp).2 = 0 ∧
          countAudio n (tick o e s inp).2 = 0 := by omega
      rw [h0.1, h0.2]
      have := ih (tick o e s inp).1 hrest
      omega

/-! ## Claim C1 (at-most-once firing per event per local date) -/

/-- Claim C1: (i) a tick fires an alert for an event only when today's
schedule resolved, now lies in the event's `[t, t+2)` window, and the event
was not already marked triggered for the current date; (ii) within any
tick's trace, the `triggered_today` insertion mark precedes every alert for
that event; (iii) `triggered_today` is cleared exactly when the local date
differs from `last_date`; (iv) over any run of ticks on one local date,
each event receives at most one notification and at most one audio
invocation. -/
theorem C1_trigger_dedup {P : Type} (o : AstroOracle P) :
    (∀ (e : PrayerEngine P) (s : SchedState) (inp : TickInput) (n : String),
      1 ≤ countNotif n (tick o e s inp).2 + countAudio n (tick o e s inp).2 →
      ∃ sch, get_today_schedule o e inp.now = some sch ∧
        (∃ u, (n, u) ∈ prayerPairs sch ∧ u ≤ inp.now.ts ∧ inp.now.ts < u + 2) ∧
        (n ∉ s.triggered ∨ s.lastDate ≠ some inp.now.date)) ∧
    (∀ (e : PrayerEngine P) (s : SchedState) (inp : TickInput) (n : String),
      markPrecedesAlert n (tick o e s inp).2 = true) ∧
    (∀ (tr : List String) (last : Option Date) (d : Date),
      (last = some d → rollover tr last d = (tr, last)) ∧
      (last ≠ some d → rollover tr last d = ([], some d))) ∧
    (∀ (d : Date) (ins : List (PrayerEngine P × TickInput)) (s : SchedState)
        (n : String),
      (∀ x ∈ ins, x.2.now.date = d) →
      countNotif n (runTicks o s ins).2 ≤ 1 ∧
      countAudio n (runTicks o s ins).2 ≤ 1) := by
  refine ⟨fun e s inp n h => ?_, fun e s inp n => ?_,
    fun tr last d => rollover_cases tr last d,
    fun d ins s n hd => runTicks_counts_le_one o n d ins s hd⟩
  · rw [tick_eq] at h
    dsimp only at h
    rw [countNotif_append, countNotif_append, countNotif_append,
      countAudio_append, countAudio_append, countAudio_append,
      (wakeStep_counts_zero _ _ _ _ n).1, (wakeStep_counts_zero _ _ _ _ n).2,
      (displayStep_counts_zero _ _ _ n).1, (displayStep_counts_zero _ _ _ n).2,
      (reminderStep_counts_zero _ _ _ n).1,
      (reminderStep_counts_zero _ _ _ n).2] at h
    rcases hsch : get_today_schedule o e inp.now with _ | sch
    · rw [hsch] at h
      simp [triggerStep, countNotif_nil, countAudio_nil] at h
    · rw [hsch] at h
      simp only [triggerStep] at h
      obtain ⟨u, hmem, h1, h2, hnotin⟩ := triggerLoop_alert_window
        inp.settings inp.audioAvailable inp.resourceOk inp.now.ts n
        (prayerPairs sch)
        ((rollover (wakeStep (detectWake s.lastTick inp.nowInstant)
            (some sch) inp.now.ts s.triggered).1 s.lastDate inp.now.date).1)
        (by omega)
      refine ⟨sch, rfl, ⟨u, hmem, h1, h2⟩, ?_⟩
      by_cases hdate : s.lastDate = some inp.now.date
      · refine Or.inl fun hmem' => hnotin ?_
        rw [(rollover_cases _ _ _).1 hdate]
        exact wakeStep_mono _ _ _ _ n hmem'
      · exact Or.inr hdate
  · rw [tick_eq]
    dsimp only
    rw [List.append_assoc, List.append_assoc]
    refine markPrecedesAlert_append n _ _
      (fun eff heff => wakeStep_no_alert _ _ _ _ eff heff n) ?_
    refine markPrecedesAlert_append n _ _
      (fun eff heff => displayStep_no_alert _ _ _ eff heff n) ?_
    refine markPrecedesAlert_append_right n _ _ ?_
      (fun eff heff => reminderStep_no_alert _ _ _ eff heff n)
    rcases hsch : get_today_schedule o e inp.now with _ | sch
    · rfl
    · simp only [triggerStep]
      exact triggerLoop_markPrecedes inp.settings inp.audioAvailable
        inp.resourceOk inp.now.ts n (prayerPairs sch) _

/-- Witness for C1: a two-tick same-date run at the fixture fires at most
one notification and one audio invocation for `"fajr"`. -/
theorem C1_trigger_dedup_witness :
    countNotif "fajr"
        (runTicks oracle0 state0 [(engine0, input0), (engine0, input0)]).2 ≤ 1 ∧
    countAudio "fajr"
        (runTicks oracle0 state0 [(engine0, input0), (engine0, input0)]).2 ≤ 1 :=
  (C1_trigger_dedup oracle0).2.2.2 date0 [(engine0, input0), (engine0, input0)]
    state0 "fajr" (by
      intro x hx
      rcases List.mem_cons.mp hx with rfl | hx
      · rfl
      · rcases List.mem_cons.mp hx with rfl | hx
        · rfl
        · exact absurd hx (List.not_mem_nil x))

/-! ## Claim C8 (wake detection) -/

/-- Claim C8: on a wake (tick gap above the 5-second threshold) the wake
step marks every strictly past event of the resolved schedule as triggered
without emitting any AlertSink effect, and emits the wake signal; with a
gap of at most 5 seconds — or on the very first tick, when no previous
instant exists — the wake step does nothing; within the full tick the wake
signal is emitted exactly when the wake was detected. -/
theorem C8_wake_recovery {P : Type} (o : AstroOracle P) (e : PrayerEngine P)
    (s : SchedState) (inp : TickInput) :
    (∀ (sch : PrayerSchedule) (tr : List String),
      (∀ p ∈ prayerPairs sch, p.2 < inp.now.ts →
        p.1 ∈ (wakeStep true (some sch) inp.now.ts tr).1) ∧
      (∀ eff ∈ (wakeStep true (some sch) inp.now.ts tr).2, ∀ n,
        isAlertFor n eff = false) ∧
      Effect.wakeSignal ∈ (wakeStep true (some sch) inp.now.ts tr).2) ∧
    (∀ (sched : Option PrayerSchedule) (tr : List String),
      wakeStep false sched inp.now.ts tr = (tr, [])) ∧
    (detectWake s.lastTick inp.nowInstant = true ↔
      ∃ prev, s.lastTick = some prev ∧ 5 < inp.nowInstant - prev) ∧
    (Effect.wakeSignal ∈ (tick o e s inp).2 ↔
      detectWake s.lastTick inp.nowInstant = true) := by
  refine ⟨fun sch tr => ⟨?_, fun eff heff n =>
      wakeStep_no_alert true (some sch) inp.now.ts tr eff heff n,
      wakeStep_wakeSignal_mem (some sch) inp.now.ts tr⟩,
    fun sched tr => rfl, ?_, ?_⟩
  · intro p hp hpast
    exact wakeMark_past_mem inp.now.ts (prayerPairs sch) tr p hp hpast
  · cases hl : s.lastTick with
    | none => simp [detectWake]
    | some prev => simp [detectWake, decide_eq_true_eq]
  · constructor
    · intro h
      rw [tick_eq] at h
      dsimp only at h
      rcases List.mem_append.mp h with h | h
      · rcases List.mem_append.mp h with h | h
        · rcases List.mem_append.mp h with h | h
          · cases hdet : detectWake s.lastTick inp.nowInstant with
            | true => rfl
            | false =>
              rw [hdet] at h
              simp [wakeStep] at h
          · exact absurd h (wakeSignal_not_in_display_reminder _ _ _
              inp.now inp.settings inp.windowOk).1
        · rcases hsch : get_today_schedule o e inp.now with _ | sch
          · rw [hsch] at h
            simp [triggerStep] at h
          · rw [hsch] at h
            simp only [triggerStep] at h
            exact absurd h (triggerLoop_no_wakeSignal _ _ _ _ _ _)
      · exact absurd h (wakeSignal_not_in_display_reminder
          (get_next_prayer o e inp.now) inp.now.isFriday inp.trayOk
          inp.now inp.settings inp.windowOk).2
    · intro hdet
      rw [tick_eq]
      dsimp only
      rw [hdet]
      exact List.mem_append_left _ (List.mem_append_left _
        (List.mem_append_left _
          (wakeStep_wakeSignal_mem (get_today_schedule o e inp.now)
            inp.now.ts s.triggered)))

/-- Witness for C8: an 8-second gap at the fixture emits the wake signal;
a 1-second gap does not. -/
theorem C8_wake_recovery_witness :
    Effect.wakeSignal ∈ (tick oracle0 engine0 stateGap input0).2 ∧
    Effect.wakeSignal ∉ (tick oracle0 engine0 state0 input0).2 := by
  constructor
  · exact (C8_wake_recovery oracle0 engine0 stateGap input0).2.2.2.mpr
      (by decide)
  · intro h
    have hd := (C8_wake_recovery oracle0 engine0 state0 input0).2.2.2.mp h
    exact absurd hd (by decide)

/-! ## Claim C9 (syuruk is informational only) -/

/-- Claim C9: no tick ever emits a notification or audio invocation for
`"syuruk"`, yet any event of the resolved schedule (syuruk included) whose
2-second window contains now is in `triggered_today` after the tick. -/
theorem C9_syuruk_exempt {P : Type} (o : AstroOracle P) (e : PrayerEngine P)
    (s : SchedState) (inp : TickInput) :
    (∀ eff ∈ (tick o e s inp).2, isAlertFor "syuruk" eff = false) ∧
    (∀ sch, get_today_schedule o e inp.now = some sch →
      ∀ p ∈ prayerPairs sch, p.2 ≤ inp.now.ts → inp.now.ts < p.2 + 2 →
        p.1 ∈ (tick o e s inp).1.triggered) := by
  constructor
  · intro eff h
    rw [tick_eq] at h
    dsimp only at h
    rcases List.mem_append.mp h with h | h
    · rcases List.mem_append.mp h with h | h
      · rcases List.mem_append.mp h with h | h
        · exact wakeStep_no_alert _ _ _ _ eff h "syuruk"
        · exact displayStep_no_alert _ _ _ eff h "syuruk"
      · rcases hsch : get_today_schedule o e inp.now with _ | sch
        · rw [hsch] at h
          simp [triggerStep] at h
        · rw [hsch] at h
          simp only [triggerStep] at h
          exact triggerLoop_no_syuruk _ _ _ _ _ _ eff h
    · exact reminderStep_no_alert _ _ _ eff h "syuruk"
  · intro sch hsch p hp h1 h2
    rw [tick_eq]
    dsimp only
    rw [hsch]
    simp only [triggerStep]
    exact triggerLoop_window_mem inp.settings inp.audioAvailable
      inp.resourceOk inp.now.ts (prayerPairs sch) _ p hp h1 h2

/-- Witness for C9: at the syuruk instant of the fixture, `"syuruk"` ends
up in the triggered set. -/
theorem C9_syuruk_exempt_witness :
    "syuruk" ∈ (tick oracle0 engine0 state0 inputSy).1.triggered :=
  (C9_syuruk_exempt oracle0 engine0 state0 inputSy).2 sched0 (by decide)
    ("syuruk", 200) (by decide) (by decide) (by decide)

end Sajda
